import Mathlib

/-!
Verification development for the romc-data-extractor decode pipeline.

Shallow embedding of the Python sources:
  - src/romc_data_extractor/rom_des.py       (ROMDesCipher, decrypt_rom_payload)
  - src/romc_data_extractor/lua_decoder.py   (decode_lua_bytes, _build_luac_payload)
  - src/romc_data_extractor/lua_exec.py      (dump_lua_table)
  - src/romc_data_extractor/slua_runtime.py  (_lua_table_to_python and friends)
  - src/romc_data_extractor/lua_table.py     (iter_lua_entries, _consume_lua_block)

Bytes are modelled as List Nat (each element a byte value), 32-bit machine
words as Nat masked with 0xFFFFFFFF exactly where the Python source masks.
External effects (ctypes runtime, subprocesses, json) are oracles passed in
as explicit environments.
-/

instance exceptDecEq {e a : Type} [DecidableEq e] [DecidableEq a] : DecidableEq (Except e a)
  | .ok x, .ok y =>
    if h : x = y then isTrue (by rw [h]) else isFalse (by intro hc; cases hc; exact h rfl)
  | .ok _, .error _ => isFalse (by intro hc; cases hc)
  | .error _, .ok _ => isFalse (by intro hc; cases hc)
  | .error x, .error y =>
    if h : x = y then isTrue (by rw [h]) else isFalse (by intro hc; cases hc; exact h rfl)

/-! ## rom_des.py : constants -/

def ROM_SIG : List Nat := [0x63, 0x7A, 0x6A, 0x7A, 0x67, 0x71, 0x64, 0x65]

def ROM_KEY : List Nat := [2, 5, 9, 3, 6, 1, 0, 1]

def PERMUTATED_CHOICE1 : List Nat := [56, 48, 40, 32, 24, 16, 8, 0, 57, 49, 41, 33, 25, 17, 9, 1, 58, 50, 42, 34, 26, 18, 10, 2, 59, 51, 43, 35, 62, 54, 46, 38, 30, 22, 14, 6, 61, 53, 45, 37, 29, 21, 13, 5, 60, 52, 44, 36, 28, 20, 12, 4, 27, 19, 11, 3]

def NUM_LEFT_ROTATIONS : List Nat := [1, 2, 4, 6, 8, 10, 12, 14, 15, 17, 19, 21, 23, 25, 27, 28]

def PERMUTATED_CHOICE2 : List Nat := [13, 16, 10, 23, 0, 4, 2, 27, 14, 5, 20, 9, 22, 18, 11, 3, 25, 7, 15, 6, 26, 19, 12, 1, 40, 51, 30, 36, 46, 54, 29, 39, 50, 44, 32, 47, 43, 48, 38, 55, 33, 52, 45, 41, 49, 35, 28, 31]

def SPBOX : List (List Nat) := [[16843776, 0, 65536, 16843780, 16842756, 66564, 4, 65536, 1024, 16843776, 16843780, 1024, 16778244, 16842756, 16777216, 4, 1028, 16778240, 16778240, 66560, 66560, 16842752, 16842752, 16778244, 65540, 16777220, 16777220, 65540, 0, 1028, 66564, 16777216, 65536, 16843780, 4, 16842752, 16843776, 16777216, 16777216, 1024, 16842756, 65536, 66560, 16777220, 1024, 4, 16778244, 66564, 16843780, 65540, 16842752, 16778244, 16777220, 1028, 66564, 16843776, 1028, 16778240, 16778240, 0, 65540, 66560, 0, 16842756], [2148565024, 2147516416, 32768, 1081376, 1048576, 32, 2148532256, 2147516448, 2147483680, 2148565024, 2148564992, 2147483648, 2147516416, 1048576, 32, 2148532256, 1081344, 1048608, 2147516448, 0, 2147483648, 32768, 1081376, 2148532224, 1048608, 2147483680, 0, 1081344, 32800, 2148564992, 2148532224, 32800, 0, 1081376, 2148532256, 1048576, 2147516448, 2148532224, 2148564992, 32768, 2148532224, 2147516416, 32, 2148565024, 1081376, 32, 32768, 2147483648, 32800, 2148564992, 1048576, 2147483680, 1048608, 2147516448, 2147483680, 1048608, 1081344, 0, 2147516416, 32800, 2147483648, 2148532256, 2148565024, 1081344], [520, 134349312, 0, 134348808, 134218240, 0, 131592, 134218240, 131080, 134217736, 134217736, 131072, 134349320, 131080, 134348800, 520, 134217728, 8, 134349312, 512, 131584, 134348800, 134348808, 131592, 134218248, 131584, 131072, 134218248, 8, 134349320, 512, 134217728, 134349312, 134217728, 131080, 520, 131072, 134349312, 134218240, 0, 512, 131080, 134349320, 134218240, 134217736, 512, 0, 134348808, 134218248, 131072, 134217728, 134349320, 8, 131592, 131584, 134217736, 134348800, 134218248, 520, 134348800, 131592, 8, 134348808, 131584], [8396801, 8321, 8321, 128, 8396928, 8388737, 8388609, 8193, 0, 8396800, 8396800, 8396929, 129, 0, 8388736, 8388609, 1, 8192, 8388608, 8396801, 128, 8388608, 8193, 8320, 8388737, 1, 8320, 8388736, 8192, 8396928, 8396929, 129, 8388736, 8388609, 8396800, 8396929, 129, 0, 0, 8396800, 8320, 8388736, 8388737, 1, 8396801, 8321, 8321, 128, 8396929, 129, 1, 8192, 8388609, 8193, 8396928, 8388737, 8193, 8320, 8388608, 8396801, 128, 8388608, 8192, 8396928], [256, 34078976, 34078720, 1107296512, 524288, 256, 1073741824, 34078720, 1074266368, 524288, 33554688, 1074266368, 1107296512, 1107820544, 524544, 1073741824, 33554432, 1074266112, 1074266112, 0, 1073742080, 1107820800, 1107820800, 33554688, 1107820544, 1073742080, 0, 1107296256, 34078976, 33554432, 1107296256, 524544, 524288, 1107296512, 256, 33554432, 1073741824, 34078720, 1107296512, 1074266368, 33554688, 1073741824, 1107820544, 34078976, 1074266368, 256, 33554432, 1107820544, 1107820800, 524544, 1107296256, 1107820800, 34078720, 0, 1074266112, 1107296256, 524544, 33554688, 1073742080, 524288, 0, 1074266112, 34078976, 1073742080], [536870928, 541065216, 16384, 541081616, 541065216, 16, 541081616, 4194304, 536887296, 4210704, 4194304, 536870928, 4194320, 536887296, 536870912, 16400, 0, 4194320, 536887312, 16384, 4210688, 536887312, 16, 541065232, 541065232, 0, 4210704, 541081600, 16400, 4210688, 541081600, 536870912, 536887296, 16, 541065232, 4210688, 541081616, 4194304, 16400, 536870928, 4194304, 536887296, 536870912, 16400, 536870928, 541081616, 4210688, 541065216, 4210704, 541081600, 0, 541065232, 16, 16384, 541065216, 4210704, 16384, 4194320, 536887312, 0, 541081600, 536870912, 4194320, 536887312], [2097152, 69206018, 67110914, 0, 2048, 67110914, 2099202, 69208064, 69208066, 2097152, 0, 67108866, 2, 67108864, 69206018, 2050, 67110912, 2099202, 2097154, 67110912, 67108866, 69206016, 69208064, 2097154, 69206016, 2048, 2050, 69208066, 2099200, 2, 67108864, 2099200, 67108864, 2099200, 2097152, 67110914, 67110914, 69206018, 69206018, 2, 2097154, 67108864, 67110912, 2097152, 69208064, 2050, 2099202, 69208064, 2050, 67108866, 69208066, 69206016, 2099200, 0, 2, 69208066, 0, 2099202, 69206016, 2048, 67108866, 67110912, 2048, 2097154], [268439616, 4096, 262144, 268701760, 268435456, 268439616, 64, 268435456, 262208, 268697600, 268701760, 266240, 268701696, 266304, 4096, 64, 268697600, 268435520, 268439552, 4160, 266240, 262208, 268697664, 268701696, 4160, 0, 0, 268697664, 268435520, 268439552, 266304, 262144, 266304, 262144, 268701696, 4096, 64, 268697664, 4096, 266304, 268439552, 64, 268435520, 268697600, 268697664, 268435456, 262144, 268439616, 0, 268701760, 262208, 268435520, 268697600, 268439552, 268439616, 0, 268701760, 266240, 266240, 4160, 4160, 262208, 268435456, 268701696]]

def MASK32 : Nat := 0xFFFFFFFF

/-! ## rom_des.py : ROMDesCipher._generate_key

The Python routine fills a mutable 32-slot array: iteration i writes the word
pair for rotation i at slots (2i, 2i+1) when generating the encryption
schedule and at slots (2(15-i), 2(15-i)+1) for decryption.  Writing pairs in
order and reversing the pair list for decryption produces the same array. -/

def pc1Bits (keyBytes : List Nat) : List Bool :=
  (List.range 56).map fun j =>
    let l := PERMUTATED_CHOICE1.getD j 0
    (keyBytes.getD (l >>> 3) 0) &&& (1 <<< (l &&& 7)) != 0

def rotatedBits (pc1m : List Bool) (i : Nat) : List Bool :=
  (List.range 56).map fun j =>
    let r := NUM_LEFT_ROTATIONS.getD i 0
    if j < 28 then
      let l := j + r
      if l < 28 then pc1m.getD l false else pc1m.getD (l - 28) false
    else
      let l := j + r
      if l < 56 then pc1m.getD l false else pc1m.getD (l - 28) false

def rawKeyPair (pc1m : List Bool) (i : Nat) : Nat × Nat :=
  let pcr := rotatedBits pc1m i
  let km := (List.range 24).foldl
    (fun acc j => if pcr.getD (PERMUTATED_CHOICE2.getD j 0) false then acc ||| (0x800000 >>> j) else acc) 0
  let kn := (List.range 24).foldl
    (fun acc j => if pcr.getD (PERMUTATED_CHOICE2.getD (j + 24) 0) false then acc ||| (0x800000 >>> j) else acc) 0
  (km, kn)

def combineKeyPair (p : Nat × Nat) : Nat × Nat :=
  let i1 := p.1
  let i2 := p.2
  ((((i1 &&& 0x00FC0000) <<< 6) ||| ((i1 &&& 0x00000FC0) <<< 10) |||
    ((i2 &&& 0x00FC0000) >>> 10) ||| ((i2 &&& 0x00000FC0) >>> 6)) &&& MASK32,
   (((i1 &&& 0x0003F000) <<< 12) ||| ((i1 &&& 0x0000003F) <<< 16) |||
    ((i2 &&& 0x0003F000) >>> 4) ||| (i2 &&& 0x0000003F)) &&& MASK32)

def generateKey (encrypt : Bool) (keyBytes : List Nat) : List Nat :=
  let pc1m := pc1Bits keyBytes
  let pairs := (List.range 16).map (rawKeyPair pc1m)
  let ordered := if encrypt then pairs else pairs.reverse
  (ordered.map combineKeyPair).foldr (fun p acc => p.1 :: p.2 :: acc) []

/-! ## rom_des.py : ROMDesCipher._des_func -/

def beWord (bs : List Nat) : Nat :=
  bs.foldl (fun a b => a * 256 + b) 0

def beBytes4 (n : Nat) : List Nat :=
  [(n >>> 24) &&& 0xFF, (n >>> 16) &&& 0xFF, (n >>> 8) &&& 0xFF, n &&& 0xFF]

def spbox (i idx : Nat) : Nat :=
  (SPBOX.getD i []).getD idx 0

def spGroupEven (work : Nat) : Nat :=
  spbox 6 (work &&& 0x3F) ||| spbox 4 ((work >>> 8) &&& 0x3F) |||
  spbox 2 ((work >>> 16) &&& 0x3F) ||| spbox 0 ((work >>> 24) &&& 0x3F)

def spGroupOdd (work : Nat) : Nat :=
  spbox 7 (work &&& 0x3F) ||| spbox 5 ((work >>> 8) &&& 0x3F) |||
  spbox 3 ((work >>> 16) &&& 0x3F) ||| spbox 1 ((work >>> 24) &&& 0x3F)

def desRound (wKey : List Nat) (st : Nat × Nat) (roundIndex : Nat) : Nat × Nat :=
  let left := st.1
  let right := st.2
  let work1 := (((right <<< 28) ||| (right >>> 4)) &&& MASK32) ^^^ wKey.getD (roundIndex * 4) 0
  let fval1 := spGroupEven work1 ||| spGroupOdd (wKey.getD (roundIndex * 4 + 1) 0 ^^^ right)
  let left1 := (left ^^^ fval1) &&& MASK32
  let work2 := (((left1 <<< 28) ||| (left1 >>> 4)) &&& MASK32) ^^^ wKey.getD (roundIndex * 4 + 2) 0
  let fval2 := spGroupEven work2 ||| spGroupOdd (wKey.getD (roundIndex * 4 + 3) 0 ^^^ left1)
  let right1 := (right ^^^ fval2) &&& MASK32
  (left1, right1)

/-- One 8-byte block of ROMDesCipher._des_func, byte-for-byte from the source.
Note the initial permutation's first step really shifts `work` left by 16
(`left ^= (work << 16) & MASK32` in the source), not by 4. -/
def desFunc (wKey : List Nat) (block : List Nat) : List Nat :=
  let left0 := beWord (block.take 4)
  let right0 := beWord ((block.drop 4).take 4)
  let w1 := (right0 ^^^ (left0 >>> 4)) &&& 0x0F0F0F0F
  let r1 := right0 ^^^ w1
  let l1 := left0 ^^^ ((w1 <<< 16) &&& MASK32)
  let w2 := (r1 ^^^ (l1 >>> 16)) &&& 0x0000FFFF
  let r2 := r1 ^^^ w2
  let l2 := l1 ^^^ ((w2 <<< 16) &&& MASK32)
  let w3 := (l2 ^^^ (r2 >>> 2)) &&& 0x33333333
  let l3 := l2 ^^^ w3
  let r3 := r2 ^^^ ((w3 <<< 2) &&& MASK32)
  let w4 := (l3 ^^^ (r3 >>> 8)) &&& 0x00FF00FF
  let l4 := l3 ^^^ w4
  let r4 := r3 ^^^ ((w4 <<< 8) &&& MASK32)
  let r5 := ((r4 <<< 1) ||| (r4 >>> 31)) &&& MASK32
  let w5 := (l4 ^^^ r5) &&& 0xAAAAAAAA
  let r6 := r5 ^^^ w5
  let l5 := l4 ^^^ w5
  let l6 := ((l5 <<< 1) ||| (l5 >>> 31)) &&& MASK32
  let st := (List.range 8).foldl (desRound wKey) (l6, r6)
  let la := st.1
  let ra := st.2
  let rb := ((ra <<< 31) ||| (ra >>> 1)) &&& MASK32
  let w6 := (la ^^^ rb) &&& 0xAAAAAAAA
  let rc := rb ^^^ w6
  let lb := la ^^^ w6
  let lc := ((lb <<< 31) ||| (lb >>> 1)) &&& MASK32
  let w7 := (rc ^^^ (lc >>> 8)) &&& 0x00FF00FF
  let rd := rc ^^^ w7
  let ld := lc ^^^ ((w7 <<< 8) &&& MASK32)
  let w8 := (rd ^^^ (ld >>> 2)) &&& 0x33333333
  let re := rd ^^^ w8
  let le := ld ^^^ ((w8 <<< 2) &&& MASK32)
  let w9 := (le ^^^ (re >>> 16)) &&& 0x0000FFFF
  let lf := le ^^^ w9
  let rf := re ^^^ ((w9 <<< 16) &&& MASK32)
  let w10 := (lf ^^^ (rf >>> 4)) &&& 0x0F0F0F0F
  let lg := lf ^^^ w10
  let rg := rf ^^^ ((w10 <<< 4) &&& MASK32)
  beBytes4 rg ++ beBytes4 lg

/-! ## rom_des.py : ROMDesCipher._crypt -/

/-- The block loop of _crypt: `for i in range(0, len(data), 8)` applies
_des_func to each 8-byte window `data[8*i : 8*i + 8]`. -/
def desBlocks (wKey : List Nat) (data : List Nat) : List Nat :=
  ((List.range ((data.length + 7) / 8)).map
    (fun i => desFunc wKey ((data.drop (8 * i)).take 8))).flatten

/-- ROMDesCipher._crypt: raises ValueError unless the buffer length is a
multiple of the 8-byte block size, then applies _des_func block by block
with the chosen key schedule. -/
def desCrypt (keyBytes : List Nat) (encrypt : Bool) (data : List Nat) :
    Except String (List Nat) :=
  if data.length % 8 != 0 then .error "Data length must be a multiple of 8 bytes"
  else .ok (desBlocks (generateKey encrypt keyBytes) data)

/-! ## rom_des.py : decrypt_rom_payload -/

/-- bytes.find : index of the first occurrence of pat in hay. -/
def findSubIdx : List Nat → List Nat → Option Nat
  | hay, pat =>
    if hay.take pat.length == pat then some 0
    else
      match hay with
      | [] => none
      | _ :: tl => (findSubIdx tl pat).map (· + 1)

/-- int.from_bytes(_, "little") over exactly 4 bytes. -/
def le32 (bs : List Nat) : Nat :=
  bs.getD 0 0 + 256 * (bs.getD 1 0 + 256 * (bs.getD 2 0 + 256 * (bs.getD 3 0)))

/-- decrypt_rom_payload, with Python exceptions surfaced in Except.
Returns .ok none for the early "return None" branches. -/
def decryptRomPayload (blob : List Nat) : Except String (Option (List Nat)) :=
  match findSubIdx blob ROM_SIG with
  | none => .ok none
  | some idx =>
    if blob.length < idx + ROM_SIG.length + 4 then .ok none
    else
      let size := le32 ((blob.drop (idx + 8)).take 4)
      let encrypted := blob.drop (idx + 12)
      let blockLen := encrypted.length - encrypted.length % 8
      -- Python tests block_len <= 0; block_len is a nonnegative int, so = 0.
      if blockLen = 0 then .ok none
      else (desCrypt ROM_KEY false (encrypted.take blockLen)).map
        (fun decrypted => some (decrypted.take size))

/-- Total form of decrypt_rom_payload (the cipher's alignment error is
unreachable from this caller; theorem decrypt_rom_payload_total proves the
two definitions agree). -/
def decryptRomPayloadT (blob : List Nat) : Option (List Nat) :=
  match findSubIdx blob ROM_SIG with
  | none => none
  | some idx =>
    if blob.length < idx + ROM_SIG.length + 4 then none
    else
      let size := le32 ((blob.drop (idx + 8)).take 4)
      let encrypted := blob.drop (idx + 12)
      let blockLen := encrypted.length - encrypted.length % 8
      if blockLen = 0 then none
      else some ((desBlocks (generateKey false ROM_KEY) (encrypted.take blockLen)).take size)

/-- The spec's description of PayloadUnwrapper.unwrap, following the claim's
words: none only when the signature is absent or fewer than 4 bytes follow
it; otherwise decrypt the longest multiple-of-8 prefix of the region after
the length field and return the first N bytes of the decryption. -/
def unwrapSpecClaim (blob : List Nat) : Option (List Nat) :=
  match findSubIdx blob ROM_SIG with
  | none => none
  | some idx =>
    if blob.length < idx + ROM_SIG.length + 4 then none
    else
      let n := le32 ((blob.drop (idx + 8)).take 4)
      let region := blob.drop (idx + 12)
      let aligned := region.take (8 * (region.length / 8))
      some ((desBlocks (generateKey false ROM_KEY) aligned).take n)

/-- The claim amended: additionally none when fewer than 8 bytes follow the
4-byte length field (so not even one cipher block is available). -/
def unwrapSpecAmended (blob : List Nat) : Option (List Nat) :=
  match findSubIdx blob ROM_SIG with
  | none => none
  | some idx =>
    if blob.length < idx + ROM_SIG.length + 4 then none
    else
      let n := le32 ((blob.drop (idx + 8)).take 4)
      let region := blob.drop (idx + 12)
      if region.length < 8 then none
      else
        let aligned := region.take (8 * (region.length / 8))
        some ((desBlocks (generateKey false ROM_KEY) aligned).take n)

/-! ## lua_decoder.py : HEADER_BYTES and _build_luac_payload -/

/-- The canonical Lua 5.3 chunk header synthesized by lua_decoder.py:
magic "\x1BLuaS", version/format 0x53 0x00, conversion-check bytes,
size descriptors 4/4/4/8/8, sentinel integer 0x5678 (little endian, 8 bytes)
and sentinel double 370.5 (IEEE-754 little endian: 00 00 00 00 00 28 77 40). -/
def HEADER_BYTES : List Nat :=
  [0x1B, 0x4C, 0x75, 0x61, 0x53, 0x00, 0x19, 0x93, 0x0D, 0x0A, 0x1A, 0x0A,
   0x04, 0x04, 0x04, 0x08, 0x08,
   0x78, 0x56, 0, 0, 0, 0, 0, 0,
   0, 0, 0, 0, 0, 0x28, 0x77, 0x40]

/-- _build_luac_payload: checks the 0x2A marker and the 257-byte minimum,
skips the marker plus the 256-byte opaque region, finds the first null byte,
skips it and any further null padding, and prepends HEADER_BYTES. -/
def buildLuacPayload (data : List Nat) : Except String (List Nat) :=
  if data.length < 0x101 || data.headD 0 != 0x2A then
    .error "Unsupported Lua blob format"
  else
    let payload := data.drop (1 + 0x100)
    match findSubIdx payload [0] with
    | none => .error "Malformed Lua payload (missing null terminator)"
    | some zeroIdx =>
      .ok (HEADER_BYTES ++ (payload.drop (zeroIdx + 1)).dropWhile (fun b => b == 0))

/-! ## lua_decoder.py : decode_lua_bytes

The two effectful collaborators are oracles:
  - dumpChunk models dump_lua_chunk; its exceptions (FileNotFoundError,
    SluaRuntimeError, OSError, all caught together by decode_lua_bytes)
    are a single error outcome with a tag.
  - runUnluac models _run_unluac; a RuntimeError is caught and recorded as
    last_error, while a FileNotFoundError raised by ensure_unluac for a
    missing jar is not caught and propagates.
The result of a successful decode is either decompiled tool output or bytes
decoded with str.decode("utf-8", errors="ignore"); the byte variant keeps
the raw bytes, decoding itself is not modelled. -/

inductive RtErr where
  | unavailable
  | fault
deriving DecidableEq

inductive UnluacErr where
  | runtimeError
  | jarMissing
deriving DecidableEq

inductive DecodedLua where
  | text (bs : List Nat)
  | tool (s : String)
deriving DecidableEq

inductive DecodeErr where
  | fromDump
  | fromUnluac
  | jarMissing
  | unsupported
deriving DecidableEq

structure DecodeEnv where
  dumpChunk : List Nat → Except RtErr (List Nat)
  runUnluac : List Nat → Except UnluacErr String

/-- The chunk-production stage of decode_lua_bytes: try dump_lua_chunk,
on failure _build_luac_payload; when both fail record the dump error as
last_error (RuntimeError(str(exc))). -/
def luacStage (env : DecodeEnv) (script : List Nat) :
    Option (List Nat) × Option DecodeErr :=
  match env.dumpChunk script with
  | .ok b => (some b, Option.none)
  | .error _ =>
    match buildLuacPayload script with
    | .ok b => (some b, Option.none)
    | .error _ => (Option.none, some .fromDump)

/-- The unluac stage: when luac_bytes is truthy run unluac; success and a
missing jar (FileNotFoundError, uncaught) both return, a RuntimeError is
recorded as last_error. -/
def toolStage (env : DecodeEnv) (ls : Option (List Nat) × Option DecodeErr) :
    Option (Except DecodeErr DecodedLua × Nat) × Option DecodeErr :=
  match ls with
  | (some b, le) =>
    if b ≠ [] then
      match env.runUnluac b with
      | .ok s => (some (.ok (.tool s), 0), le)
      | .error .jarMissing => (some (.error .jarMissing, 0), le)
      | .error .runtimeError => (Option.none, some .fromUnluac)
    else (Option.none, le)
  | (Option.none, le) => (Option.none, le)

/-- The decision made for one blob of the unwrap loop:
"if not decrypted: continue"; a decrypted payload starting with the marker
re-enters decode_lua_bytes, any other decrypted payload is final text. -/
inductive UnwrapOutcome where
  | reenter (d : List Nat)
  | text (d : List Nat)
  | nothing
deriving DecidableEq

def tryUnwrap (blob : List Nat) : UnwrapOutcome :=
  match decryptRomPayloadT blob with
  | some d =>
    if d = [] then .nothing
    else if d.headD 0 = 0x2A then .reenter d
    else .text d
  | Option.none => .nothing

/-- raise last_error if any was recorded, else RuntimeError("Unsupported
Lua blob format"). -/
def failStage (lastErr : Option DecodeErr) : Option (Except DecodeErr DecodedLua × Nat) :=
  match lastErr with
  | some e => some (.error e, 0)
  | Option.none => some (.error .unsupported, 0)

/-- decode_lua_bytes, fuel-indexed (none = fuel exhausted; the fuel needed
is bounded, see decode_fuel_sufficient).  The second component counts the
successful decrypt_rom_payload unwrap passes along the return path. -/
def decodeLuaBytesF (env : DecodeEnv) :
    Nat → List Nat → Option (List Nat) → Option (Except DecodeErr DecodedLua × Nat)
  | 0, _, _ => Option.none
  | fuel + 1, script, raw =>
    if script = [] then some (.ok (.text []), 0)
    else if script.headD 0 != 0x2A then some (.ok (.text script), 0)
    else
      match toolStage env (luacStage env script) with
      | (some res, _) => some res
      | (Option.none, lastErr) =>
        match tryUnwrap script with
        | .reenter d => (decodeLuaBytesF env fuel d Option.none).map (fun p => (p.1, p.2 + 1))
        | .text d => some (.ok (.text d), 1)
        | .nothing =>
          match raw with
          | some r =>
            match tryUnwrap r with
            | .reenter d2 => (decodeLuaBytesF env fuel d2 Option.none).map (fun p => (p.1, p.2 + 1))
            | .text d2 => some (.ok (.text d2), 1)
            | .nothing => failStage lastErr
          | Option.none => failStage lastErr

/-- The environment in which the native slua runtime is unavailable and the
unluac invocation fails with a RuntimeError: every strategy except the
ROM-payload unwrap is out of service. -/
def envAllDown : DecodeEnv :=
  { dumpChunk := fun _ => .error .unavailable
    runUnluac := fun _ => .error .runtimeError }

/-! Concrete nested ROM-encrypted blobs.  Each wraps the next: decrypting
wrapTriple's payload region yields wrapDouble, decrypting wrapDouble's yields
wrapSingle, and wrapSingle's decrypts to innerText (which does not start
with the 0x2A marker).  All were constructed against the cipher embedding
above; the theorems below evaluate the decoder on them. -/

def innerText : List Nat := [165, 72, 4, 37, 45, 64, 53, 133]

def wrapSingle : List Nat :=
  [42, 142, 25, 182, 201, 53, 65, 22, 251, 251, 250, 183, 99, 122, 106, 122,
   103, 113, 100, 101, 29, 169, 155, 175, 231, 181, 218, 203, 68, 85, 177, 182]

def wrapDouble : List Nat :=
  [42, 10, 152, 80, 40, 88, 78, 244, 63, 30, 124, 30, 99, 122, 106, 122,
   103, 113, 100, 101, 247, 183, 14, 152, 182, 143, 177, 96, 166, 102, 2, 227,
   2, 2, 32, 5, 75, 188, 171, 243, 124, 66, 62, 78, 180, 1, 134, 253,
   241, 195, 96, 123, 191, 147, 30, 213]

def wrapTriple : List Nat :=
  [42, 99, 122, 106, 122, 103, 113, 100, 101, 56, 0, 0, 0, 56, 150, 168,
   207, 163, 185, 10, 172, 71, 17, 104, 251, 4, 193, 198, 143, 122, 62, 85,
   238, 55, 211, 85, 174, 194, 226, 122, 86, 28, 126, 71, 85, 49, 200, 22,
   5, 195, 28, 1, 32, 207, 150, 240, 39, 28, 169, 255, 34, 107, 116, 39,
   61, 70, 7, 210, 211]

/-! ## slua_runtime.py : _lua_to_python / _lua_table_to_python

The Lua heap as observed through the C-API iteration interface: a table
identity (the lua_topointer value) indexes into a list of key/value entry
lists, given in lua_next iteration order.  Values carry the interpreter's
own type tags; numbers keep the lua_isinteger distinction, floating payloads
stay opaque bit patterns.  The Python side:
  - PyVal.none models Python None;
  - a Python bool is an int subclass with True == 1 and False == 0, so the
    key test isinstance(key, int) and key >= 1 accepts the boolean True and
    files it in array_values under slot 1 (see pyKeyIndex);
  - dict insertion keeps the first key object and its position, overwriting
    only the value, as Python dicts do.
The recursion carries the "currently visiting" identity set; Python's set
is modelled as the list of members (it is only used for membership, add of
an absent element, and discard). -/

inductive LuaV where
  | nil
  | boolean (b : Bool)
  | intg (n : Int)
  | flt (bits : Nat)
  | str (s : String)
  | table (id : Nat)
deriving DecidableEq

inductive PyVal where
  | none
  | pybool (b : Bool)
  | pyint (n : Int)
  | pyfloat (bits : Nat)
  | pystr (s : String)
  | pylist (xs : List PyVal)
  | pydict (kvs : List (PyVal × PyVal))

def Heap : Type := List (List (LuaV × LuaV))

def entriesFor (H : Heap) (id : Nat) : List (LuaV × LuaV) :=
  H.getD id []

/-- Python key-slot equality restricted to hashable scalars: True == 1 and
False == 0; opaque float payloads compare only to themselves.  (Container
keys would raise TypeError in Python; they never appear as dict keys here.) -/
def pyKeyCanon : PyVal → PyVal
  | .pybool b => .pyint (if b then 1 else 0)
  | v => v

def pyKeyEq (a b : PyVal) : Bool :=
  match pyKeyCanon a, pyKeyCanon b with
  | .none, .none => true
  | .pyint m, .pyint n => m == n
  | .pyfloat m, .pyfloat n => m == n
  | .pystr s, .pystr t => s == t
  | _, _ => false

/-- isinstance(key, int) (which admits bool) combined with the int value the
dict slot machinery sees. -/
def pyKeyIndex : PyVal → Option Int
  | .pyint n => some n
  | .pybool b => some (if b then 1 else 0)
  | _ => Option.none

/-- Python dict assignment d[k] = v: overwrite in place keeping the original
key object and position, else append. -/
def pyDictInsert : List (PyVal × PyVal) → PyVal → PyVal → List (PyVal × PyVal)
  | [], k, v => [(k, v)]
  | (k', w) :: rest, k, v =>
    if pyKeyEq k' k then (k', v) :: rest else (k', w) :: pyDictInsert rest k v

/-- array_values[key] = value for the canonical integer slot. -/
def intAssocInsert : List (Int × PyVal) → Int → PyVal → List (Int × PyVal)
  | [], n, v => [(n, v)]
  | (m, w) :: rest, n, v =>
    if m == n then (m, v) :: rest else (m, w) :: intAssocInsert rest n v

def intAssocGet : List (Int × PyVal) → Int → Option PyVal
  | [], _ => Option.none
  | (m, w) :: rest, n => if m == n then some w else intAssocGet rest n

/-- The loop state of _lua_table_to_python while iterating lua_next. -/
structure ConvSt where
  seen : List Nat
  arr : List (Int × PyVal)
  mp : List (PyVal × PyVal)
  maxIdx : Int
  cand : Bool

/-- One iteration of the while lua_next loop, after the value and key have
been marshalled to pv and pk: classify by isinstance(key, int) and key >= 1. -/
def convStep (st : ConvSt) (pk pv : PyVal) (seen2 : List Nat) : ConvSt :=
  match pyKeyIndex pk with
  | some n =>
    if 1 ≤ n then
      { st with seen := seen2, arr := intAssocInsert st.arr n pv,
                maxIdx := if st.maxIdx < n then n else st.maxIdx }
    else
      { st with seen := seen2, mp := pyDictInsert st.mp pk pv, cand := false }
  | Option.none =>
    { st with seen := seen2, mp := pyDictInsert st.mp pk pv, cand := false }

/-- The iteration, parameterized by the recursive marshaller: for each
entry the value (stack index -1) is converted first, then the key (-2),
each threading the currently-visiting set. -/
def convFold (conv : LuaV → List Nat → Option (PyVal × List Nat)) :
    List (LuaV × LuaV) → ConvSt → Option ConvSt
  | [], st => some st
  | (k, v) :: rest, st =>
    match conv v st.seen with
    | Option.none => Option.none
    | some (pv, seen1) =>
      match conv k seen1 with
      | Option.none => Option.none
      | some (pk, seen2) => convFold conv rest (convStep st pk pv seen2)

/-- After the loop: array when every key was a positive integer, at least
one was seen, and the count equals the maximum index; otherwise a dict
combining map_values first and array_values after. -/
def tableResult (st : ConvSt) : PyVal :=
  if st.cand && !st.arr.isEmpty && ((st.arr.length : Int) == st.maxIdx) then
    .pylist (((List.range st.maxIdx.toNat).map (fun i => Int.ofNat i + 1)).map
      (fun i => (intAssocGet st.arr i).getD .none))
  else
    .pydict (st.arr.foldl (fun d kv => pyDictInsert d (.pyint kv.1) kv.2) st.mp)

/-- _lua_to_python / _lua_table_to_python, fuel-indexed (none = fuel ran
out; lua_table_conversion_total shows H.length + 1 is always enough).
A table whose identity is in the currently-visiting set marshals to None;
otherwise the identity is added for the subtree and discarded on return. -/
def luaToPythonF (H : Heap) : Nat → LuaV → List Nat → Option (PyVal × List Nat)
  | 0, _, _ => Option.none
  | _ + 1, .nil, seen => some (.none, seen)
  | _ + 1, .boolean b, seen => some (.pybool b, seen)
  | _ + 1, .intg n, seen => some (.pyint n, seen)
  | _ + 1, .flt bits, seen => some (.pyfloat bits, seen)
  | _ + 1, .str s, seen => some (.pystr s, seen)
  | fuel + 1, .table id, seen =>
    if id ∈ seen then some (.none, seen)
    else
      match convFold (fun w sn => luaToPythonF H fuel w sn) (entriesFor H id)
        ⟨id :: seen, [], [], 0, true⟩ with
      | Option.none => Option.none
      | some st => some (tableResult st, st.seen.erase id)

/-! ## lua_exec.py : dump_lua_table

Oracles: the native-runtime table dump (dump_lua_table_runtime), the native
chunk dump (dump_lua_chunk), the external interpreter path lookup
(_lua_executable), the subprocess invocation, and json.loads.  Python's
FileNotFoundError is a subclass of OSError, so the except clauses written
as (SluaRuntimeError, FileNotFoundError, OSError) and (SluaRuntimeError,
OSError) catch exactly the same RtErr outcomes: both the unavailable and
the fault variants. -/

inductive ExecErr where
  | buildValue (msg : String)
  | luaMissing
  | procFailed (code : Nat)
  | jsonError
deriving DecidableEq

structure ExecEnv where
  runtimeDump : List Nat → String → Except RtErr PyVal
  dumpChunk : List Nat → Except RtErr (List Nat)
  luaExe : Except Unit Unit
  runProc : List Nat → String → Except Nat String
  jsonLoads : String → Except Unit PyVal

/-- str.strip(): drop whitespace from both ends. -/
def stripChars (cs : List Char) : List Char :=
  ((cs.dropWhile Char.isWhitespace).reverse.dropWhile Char.isWhitespace).reverse

/-- str.strip() lifted to String. -/
def pyStrip (s : String) : String :=
  String.mk (stripChars s.data)

/-- dump_lua_table: try the native runtime; on SluaRuntimeError,
FileNotFoundError or OSError fall back to compiling a chunk (native dump,
else synthesized header) and running the external interpreter; parse its
stripped stdout as JSON, empty output meaning an empty dict. -/
def dumpLuaTable (env : ExecEnv) (script : List Nat) (name : String) :
    Except ExecErr PyVal :=
  match env.runtimeDump script name with
  | .ok v => .ok v
  | .error _ =>
    let luacE : Except String (List Nat) :=
      match env.dumpChunk script with
      | .ok b => .ok b
      | .error _ => buildLuacPayload script
    match luacE with
    | .error msg => .error (.buildValue msg)
    | .ok luac =>
      match env.luaExe with
      | .error _ => .error .luaMissing
      | .ok _ =>
        match env.runProc luac name with
        | .error code => .error (.procFailed code)
        | .ok out =>
          let s := pyStrip out
          if s = "" then .ok (.pydict [])
          else
            match env.jsonLoads s with
            | .ok v => .ok v
            | .error _ => .error .jsonError

/-! ## lua_table.py : _consume_lua_block and iter_lua_entries -/

/-- str.find(sub) on a suffix: index of the first position where sub
occurs. -/
def firstMatch : List Char → List Char → Option Nat
  | hay, pat =>
    if hay.take pat.length == pat then some 0
    else
      match hay with
      | [] => Option.none
      | _ :: tl => (firstMatch tl pat).map (· + 1)

/-- text.find(sub, pos): absolute index of the first occurrence at or after
pos. -/
def findStrFrom (text pat : List Char) (pos : Nat) : Option Nat :=
  (firstMatch (text.drop pos) pat).map (· + pos)

/-- text.rfind(c, 0, stop): the largest index below stop holding c. -/
def rlastChar : List Char → Char → Option Nat
  | [], _ => Option.none
  | ch :: tl, c =>
    match rlastChar tl c with
    | some i => some (i + 1)
    | Option.none => if ch = c then some 0 else Option.none

/-- The scanning loop of _consume_lua_block over text[idx:], carrying the
absolute index, brace depth (a Python int: it may pass through zero only
when decremented from one), the single-quote string flag and the
backslash-escape flag.  Returns the absolute index of the closing brace. -/
def consumeGo : List Char → Nat → Int → Bool → Bool → Option Nat
  | [], _, _, _, _ => Option.none
  | ch :: rest, idx, depth, instr, esc =>
    let instr' := if ch = '\'' && !esc then !instr else instr
    if instr' then
      consumeGo rest (idx + 1) depth instr' (ch = '\\' && !esc)
    else
      if ch = '{' then consumeGo rest (idx + 1) (depth + 1) instr' false
      else if ch = '}' then
        if depth - 1 = 0 then some idx
        else consumeGo rest (idx + 1) (depth - 1) instr' false
      else consumeGo rest (idx + 1) depth instr' false

/-- _consume_lua_block: the full balanced block text[start : close + 1] and
the next cursor position, or none (modelling the (None, start) return). -/
def consumeLuaBlock (text : List Char) (start : Nat) :
    Option (List Char × Nat) :=
  match consumeGo (text.drop start) start 0 false false with
  | some closeIdx => some ((text.drop start).take (closeIdx + 1 - start), closeIdx + 1)
  | Option.none => Option.none

/-- The outcome of one turn of the iter_lua_entries while-loop. -/
inductive ScanStep where
  | noMatch
  | skip (newPos : Nat)
  | yield (block : List Char) (newPos : Nat)
deriving DecidableEq

/-- One turn of iter_lua_entries: find "id=" from the cursor, anchor at the
nearest "{" to its left via rfind, reject when that brace is directly
preceded by "=", or by "{" itself preceded by "=", then scan the balanced
block. -/
def iterStep (text : List Char) (pos : Nat) : ScanStep :=
  match findStrFrom text ['i', 'd', '='] pos with
  | Option.none => .noMatch
  | some idx =>
    match rlastChar (text.take idx) '{' with
    | Option.none => .skip (idx + 3)
    | some start =>
      if 0 < start && text.getD (start - 1) ' ' = '=' then .skip (idx + 3)
      else if 0 < start && text.getD (start - 1) ' ' = '{' && 1 < start &&
          text.getD (start - 2) ' ' = '=' then .skip (idx + 3)
      else
        match consumeLuaBlock text start with
        | some (block, e) => .yield block e
        | Option.none => .skip (idx + 3)

/-- The iter_lua_entries generator, fuel-indexed (none = fuel ran out; the
loop need not terminate, see the C8 analysis). -/
def iterLuaEntriesF (text : List Char) : Nat → Nat → Option (List (List Char))
  | 0, _ => Option.none
  | fuel + 1, pos =>
    match iterStep text pos with
    | .noMatch => some []
    | .skip p => iterLuaEntriesF text fuel p
    | .yield b p => (iterLuaEntriesF text fuel p).map (b :: ·)

/-- The claim's notion for C8, modelled from the spec: the brace opened at
index b is still unmatched (not already closed) at index stop, by plain
brace-depth counting over text[b : stop]. -/
def braceClosedWithin (seg : List Char) : Bool :=
  (seg.foldl
    (fun acc ch =>
      let d : Int := if ch = '{' then acc.1 + 1 else if ch = '}' then acc.1 - 1 else acc.1
      (d, acc.2 || d == 0))
    ((0 : Int), false)).2

/-! ## Shared definitions for theorem statements -/

/-- Count of table identities not yet in the visiting set: the quantity the
conversion recursion strictly decreases. -/
def countFree (H : Heap) (seen : List Nat) : Nat :=
  ((Finset.range H.length).filter (fun i => i ∉ seen)).card

/-- Fixed scalar marshalling (the table-free fragment of _lua_to_python). -/
def scalarPy : LuaV → PyVal
  | .nil => .none
  | .boolean b => .pybool b
  | .intg n => .pyint n
  | .flt bits => .pyfloat bits
  | .str s => .pystr s
  | .table _ => .none

def isScalar : LuaV → Bool
  | .table _ => false
  | _ => true

/-- The marshalled value of v in context, total thanks to the fuel bound. -/
def pcFun (H : Heap) (fuel : Nat) (seen : List Nat) (w : LuaV) : PyVal :=
  match luaToPythonF H fuel w seen with
  | some (r, _) => r
  | Option.none => .none

/-- The pure classification fold over already-marshalled key/value pairs
(the seen component never moves). -/
def classifyFold : List (PyVal × PyVal) → ConvSt → ConvSt
  | [], st => st
  | (pk, pv) :: rest, st => classifyFold rest (convStep st pk pv st.seen)

/-- Recursion measure of decode_lua_bytes: total bytes across the script
and the optional companion blob. -/
def decodeMeasure (script : List Nat) (raw : Option (List Nat)) : Nat :=
  script.length + (match raw with | Option.none => 0 | some r => r.length + 1)

/-- Two distinct blocks that ROMDesCipher encrypts identically: the first
initial-permutation step writes `left ^= (work << 16) & MASK32` (rom_des.py
line 106) where textbook DES shifts by 4, so the bits of work at positions
16-19 and 24-27 overflow past bit 31 and are discarded. -/
def desCollisionB2 : List Nat := [0, 0, 0, 0, 0, 1, 0, 0]

def desCollisionCiphertext : List Nat := [230, 17, 140, 238, 207, 210, 67, 168]

def desCollisionDecrypted : List Nat := [50, 21, 239, 215, 253, 48, 64, 129]

/-! ## Cipher lemmas -/

lemma desFunc_length (wKey block : List Nat) : (desFunc wKey block).length = 8 := by
  simp [desFunc, beBytes4]

lemma desBlocks_length (wKey data : List Nat) (h : data.length % 8 = 0) :
    (desBlocks wKey data).length = data.length := by
  simp only [desBlocks, List.length_flatten, List.map_map]
  have hlen : ∀ l : List Nat,
      (l.map (fun i => (desFunc wKey ((data.drop (8 * i)).take 8)).length)).sum = 8 * l.length := by
    intro l
    induction l with
    | nil => simp
    | cons a tl ih => simp [desFunc_length, ih, Nat.mul_succ]; ring
  have := hlen (List.range ((data.length + 7) / 8))
  simp only [Function.comp_def] at this ⊢
  rw [this]
  simp only [List.length_range]
  omega

lemma desCrypt_aligned (keyBytes data : List Nat) (e : Bool) (h : data.length % 8 = 0) :
    desCrypt keyBytes e data = .ok (desBlocks (generateKey e keyBytes) data) := by
  simp [desCrypt, h]

/-! ## decrypt_rom_payload lemmas -/

lemma decryptRomPayload_eq_total (blob : List Nat) :
    decryptRomPayload blob = .ok (decryptRomPayloadT blob) := by
  unfold decryptRomPayload decryptRomPayloadT
  cases hf : findSubIdx blob ROM_SIG with
  | none => rfl
  | some idx =>
    simp only
    split
    · rfl
    · set enc := blob.drop (idx + 12) with henc
      set blockLen := enc.length - enc.length % 8 with hbl
      split
      · rfl
      · have halign : (enc.take blockLen).length % 8 = 0 := by
          have : blockLen ≤ enc.length := by omega
          simp only [List.length_take]
          have : min blockLen enc.length = blockLen := by omega
          rw [this]
          omega
        rw [desCrypt_aligned _ _ _ halign]
        rfl

lemma decryptRomPayloadT_shrink (blob d : List Nat)
    (h : decryptRomPayloadT blob = some d) : d.length + 12 ≤ blob.length := by
  unfold decryptRomPayloadT at h
  cases hf : findSubIdx blob ROM_SIG with
  | none => rw [hf] at h; exact absurd h (by simp)
  | some idx =>
    rw [hf] at h
    simp only at h
    split at h
    · exact absurd h (by simp)
    · rename_i hlen
      split at h
      · exact absurd h (by simp)
      · rename_i hbl
        have hd := (Option.some.inj h).symm
        set enc := blob.drop (idx + 12) with henc
        set blockLen := enc.length - enc.length % 8 with hblck
        have halign : (enc.take blockLen).length % 8 = 0 := by
          simp only [List.length_take]
          have : min blockLen enc.length = blockLen := by omega
          rw [this]; omega
        have hdb := desBlocks_length (generateKey false ROM_KEY) (enc.take blockLen) halign
        have h1 : d.length ≤ (enc.take blockLen).length := by
          rw [hd, List.length_take]
          exact le_trans (Nat.min_le_right _ _) (le_of_eq hdb)
        have h2 : (enc.take blockLen).length ≤ enc.length := by
          simp only [List.length_take]; omega
        have h3 : enc.length = blob.length - (idx + 12) := by
          rw [henc]; simp
        simp only [ROM_SIG, List.length_cons] at hlen
    -- blob.length >= idx + 12 from the guard
        omega

/-! ## decode_lua_bytes lemmas -/

lemma tryUnwrap_reenter_shrink (blob d : List Nat)
    (h : tryUnwrap blob = .reenter d) : d.length + 12 ≤ blob.length := by
  unfold tryUnwrap at h
  cases hf : decryptRomPayloadT blob with
  | none => rw [hf] at h; exact absurd h (by simp)
  | some d0 =>
    rw [hf] at h
    simp only at h
    split at h
    · exact absurd h (by simp)
    · split at h
      · cases h
        exact decryptRomPayloadT_shrink blob d hf
      · exact absurd h (by simp)

lemma decode_fuel_sufficient (env : DecodeEnv) :
    ∀ fuel script raw, decodeMeasure script raw < fuel →
      (decodeLuaBytesF env fuel script raw).isSome := by
  intro fuel
  induction fuel with
  | zero => intro s r h; exact absurd h (by omega)
  | succ f ih =>
    intro script raw hm
    rw [decodeLuaBytesF]
    split
    · simp
    split
    · simp
    split
    · simp
    rename_i lastErr heq
    cases hu : tryUnwrap script with
    | reenter d =>
      have hsh := tryUnwrap_reenter_shrink script d hu
      have h2 : (decodeLuaBytesF env f d Option.none).isSome := by
        apply ih
        unfold decodeMeasure at hm ⊢
        cases raw <;> simp_all <;> omega
      rcases Option.isSome_iff_exists.mp h2 with ⟨p, hp⟩
      simp [hp]
    | text d => simp
    | nothing =>
      cases raw with
      | none => simp [failStage]; split <;> simp
      | some r =>
        simp only
        cases hr : tryUnwrap r with
        | reenter d2 =>
          have hsh := tryUnwrap_reenter_shrink r d2 hr
          have h2 : (decodeLuaBytesF env f d2 Option.none).isSome := by
            apply ih
            unfold decodeMeasure at hm ⊢
            simp only at hm ⊢
            omega
          rcases Option.isSome_iff_exists.mp h2 with ⟨p, hp⟩
          simp [hp]
        | text d2 => simp
        | nothing => simp [failStage]; split <;> simp

/-! ## Claim C1 -/

/-- C1: the claim that decrypt inverts encrypt for every 8-byte key and
8-byte-aligned buffer FAILS on the code: with the repository's own fixed
key, the all-zero block and desCollisionB2 encrypt to the same ciphertext
(encryption is not injective), and decrypting that ciphertext returns
desCollisionDecrypted, which differs from both plaintexts.  The slip is the
`<< 16` in the first initial-permutation step (rom_des.py line 106), where
the matching final-permutation step uses `<< 4`. -/
theorem claim_C1_roundtrip_fails_at_rom_key :
    desCrypt ROM_KEY true (List.replicate 8 0) = .ok desCollisionCiphertext ∧
    desCrypt ROM_KEY true desCollisionB2 = .ok desCollisionCiphertext ∧
    desCrypt ROM_KEY false desCollisionCiphertext = .ok desCollisionDecrypted ∧
    desCollisionDecrypted ≠ List.replicate 8 0 ∧
    desCollisionDecrypted ≠ desCollisionB2 ∧
    (List.replicate 8 0 : List Nat) ≠ desCollisionB2 := by
  refine ⟨?_, ?_, ?_, by decide, by decide, by decide⟩
  · decide
  · decide
  · decide

/-! ## Claim C9 -/

/-- C9: decrypt_rom_payload never raises: it always agrees with its total
counterpart (in particular the cipher's block-alignment ValueError branch is
unreachable from this caller), and when fewer than 8 bytes follow the 4-byte
length field the result is none via the block_len guard, which precedes the
cipher construction in the source. -/
theorem claim_C9_decrypt_payload_never_raises :
    (∀ blob, decryptRomPayload blob = .ok (decryptRomPayloadT blob)) ∧
    (∀ blob idx, findSubIdx blob ROM_SIG = some idx →
      ¬ blob.length < idx + 12 → (blob.drop (idx + 12)).length < 8 →
      decryptRomPayload blob = .ok Option.none) := by
  constructor
  · exact decryptRomPayload_eq_total
  · intro blob idx hf hge hlt
    rw [decryptRomPayload_eq_total blob]
    unfold decryptRomPayloadT
    rw [hf]
    simp only [ROM_SIG, List.length_cons, List.length_nil]
    have hg : ¬ blob.length < idx + (0 + 1 + 1 + 1 + 1 + 1 + 1 + 1 + 1) + 4 := by omega
    rw [if_neg hg]
    simp only [List.length_drop] at hlt
    have hbl : blob.length - (idx + 12) - (blob.length - (idx + 12)) % 8 = 0 := by omega
    simp [hbl]

/-- C9 witness: a blob with the signature at index 0 followed by a 4-byte
length field and a single extra byte. -/
theorem claim_C9_witness :
    decryptRomPayload (ROM_SIG ++ [0, 0, 0, 0, 7]) =
      .ok (decryptRomPayloadT (ROM_SIG ++ [0, 0, 0, 0, 7])) ∧
    decryptRomPayload (ROM_SIG ++ [0, 0, 0, 0, 7]) = .ok Option.none := by
  refine ⟨claim_C9_decrypt_payload_never_raises.1 _, ?_⟩
  exact claim_C9_decrypt_payload_never_raises.2 (ROM_SIG ++ [0, 0, 0, 0, 7]) 0
    (by decide) (by decide) (by decide)

/-! ## Claim C5 -/

/-- C5 counterexample: the claim says that whenever the signature is present
with at least 4 bytes after it, bytes are returned (for this blob: the first
0 bytes of the decryption of the empty aligned region, that is some []).
The code instead returns none through the block_len <= 0 guard. -/
theorem claim_C5_counterexample :
    decryptRomPayload (ROM_SIG ++ [0, 0, 0, 0]) = .ok Option.none ∧
    unwrapSpecClaim (ROM_SIG ++ [0, 0, 0, 0]) = some [] := by
  exact ⟨by decide, by decide⟩

/-- C5 amended: decrypt_rom_payload behaves as the claim describes with one
more none case: when fewer than 8 bytes follow the 4-byte length field (so
not even one cipher block is available), the result is none.  Otherwise the
longest multiple-of-8 prefix of the region is decrypted and the first N
bytes are returned; in particular a well-formed blob whose declared length
N fits the aligned region yields exactly N bytes. -/
theorem claim_C5_unwrap_amended :
    (∀ blob, decryptRomPayloadT blob = unwrapSpecAmended blob) ∧
    (∀ blob idx n, findSubIdx blob ROM_SIG = some idx →
      n = le32 ((blob.drop (idx + 8)).take 4) →
      8 ≤ (blob.drop (idx + 12)).length →
      n ≤ (blob.drop (idx + 12)).length - (blob.drop (idx + 12)).length % 8 →
      ∃ d, decryptRomPayloadT blob = some d ∧ d.length = n) := by
  constructor
  · intro blob
    unfold decryptRomPayloadT unwrapSpecAmended
    cases hf : findSubIdx blob ROM_SIG with
    | none => rfl
    | some idx =>
      simp only
      split
      · rfl
      · set enc := blob.drop (idx + 12) with henc
        have hdm : enc.length - enc.length % 8 = 8 * (enc.length / 8) := by omega
        by_cases h8 : enc.length < 8
        · have hz : enc.length - enc.length % 8 = 0 := by omega
          rw [if_pos (by omega : enc.length < 8)] at *
          simp [hz]
        · have hnz : ¬ enc.length - enc.length % 8 = 0 := by omega
          rw [if_neg hnz, if_neg (by omega : ¬ enc.length < 8), hdm]
  · intro blob idx n hf hn h8 hle
    unfold decryptRomPayloadT
    rw [hf]
    simp only
    set enc := blob.drop (idx + 12) with henc
    have hlen : enc.length = blob.length - (idx + 12) := by rw [henc]; simp
    have hguard : ¬ blob.length < idx + ROM_SIG.length + 4 := by
      simp only [ROM_SIG, List.length_cons, List.length_nil]
      omega
    rw [if_neg hguard]
    have hnz : ¬ enc.length - enc.length % 8 = 0 := by omega
    rw [if_neg hnz]
    refine ⟨_, rfl, ?_⟩
    have halign : (enc.take (enc.length - enc.length % 8)).length % 8 = 0 := by
      simp only [List.length_take]
      have : min (enc.length - enc.length % 8) enc.length = enc.length - enc.length % 8 := by
        omega
      rw [this]; omega
    rw [List.length_take, desBlocks_length _ _ halign, List.length_take, ← hn]
    have : min (enc.length - enc.length % 8) enc.length = enc.length - enc.length % 8 := by
      omega
    rw [this]
    omega

/-- C5 witness: signature + declared length 4 + one aligned block returns
exactly 4 bytes. -/
theorem claim_C5_witness :
    decryptRomPayloadT (ROM_SIG ++ [4, 0, 0, 0] ++ List.replicate 8 0) =
      unwrapSpecAmended (ROM_SIG ++ [4, 0, 0, 0] ++ List.replicate 8 0) ∧
    ∃ d, decryptRomPayloadT (ROM_SIG ++ [4, 0, 0, 0] ++ List.replicate 8 0) = some d ∧
      d.length = 4 := by
  refine ⟨claim_C5_unwrap_amended.1 _, ?_⟩
  exact claim_C5_unwrap_amended.2 (ROM_SIG ++ [4, 0, 0, 0] ++ List.replicate 8 0) 0 4
    (by decide) (by decide) (by decide) (by decide)

/-! ## Claim C4 helper evaluations -/

lemma unwrap_triple_step : tryUnwrap wrapTriple = .reenter wrapDouble := by
  have h : decryptRomPayloadT wrapTriple = some wrapDouble := by decide
  unfold tryUnwrap
  rw [h]
  decide

lemma unwrap_double_step : tryUnwrap wrapDouble = .reenter wrapSingle := by
  have h : decryptRomPayloadT wrapDouble = some wrapSingle := by decide
  unfold tryUnwrap
  rw [h]
  decide

lemma unwrap_single_step : tryUnwrap wrapSingle = .text innerText := by
  have h : decryptRomPayloadT wrapSingle = some innerText := by decide
  unfold tryUnwrap
  rw [h]
  decide

lemma decode_wrapSingle_eval :
    decodeLuaBytesF envAllDown 1 wrapSingle Option.none = some (.ok (.text innerText), 1) := by
  have hl : luacStage envAllDown wrapSingle = (Option.none, some .fromDump) := by decide
  rw [show (1 : Nat) = 0 + 1 from rfl, decodeLuaBytesF, hl]
  rw [unwrap_single_step]
  decide

lemma decode_wrapDouble_eval :
    decodeLuaBytesF envAllDown 2 wrapDouble Option.none = some (.ok (.text innerText), 2) := by
  have hl : luacStage envAllDown wrapDouble = (Option.none, some .fromDump) := by decide
  rw [show (2 : Nat) = 1 + 1 from rfl, decodeLuaBytesF, hl]
  rw [unwrap_double_step]
  simp only [decode_wrapSingle_eval]
  decide

lemma decode_wrapTriple_eval :
    decodeLuaBytesF envAllDown 3 wrapTriple Option.none = some (.ok (.text innerText), 3) := by
  have hl : luacStage envAllDown wrapTriple = (Option.none, some .fromDump) := by decide
  rw [show (3 : Nat) = 2 + 1 from rfl, decodeLuaBytesF, hl]
  rw [unwrap_triple_step]
  simp only [decode_wrapDouble_eval]
  decide

/-! ## Claim C4 -/

/-- C4 counterexample: the re-entry of decode_lua_bytes on decrypted bytes
is not bounded to one: on wrapTriple (a triply cipher-wrapped marker blob,
with the native runtime and unluac unavailable) the call re-enters twice,
performs three unwrap passes, and still succeeds with the innermost text,
where a one-re-entry bound would have to fail. -/
theorem claim_C4_counterexample :
    decodeLuaBytesF envAllDown 3 wrapTriple Option.none =
      some (.ok (.text innerText), 3) :=
  decode_wrapTriple_eval

/-- C4 amended: a doubly-wrapped blob succeeds after exactly two unwrap
passes, and the recursion, while not explicitly bounded, terminates on
every input because each successful unwrap shortens the buffer by at least
the 12 signature-plus-length bytes: fuel beyond the total byte count is
never exhausted. -/
theorem claim_C4_decode_unwrap_amended :
    decodeLuaBytesF envAllDown 2 wrapDouble Option.none =
      some (.ok (.text innerText), 2) ∧
    (∀ blob d, decryptRomPayloadT blob = some d → d.length + 12 ≤ blob.length) ∧
    (∀ (env : DecodeEnv) fuel script raw, decodeMeasure script raw < fuel →
      (decodeLuaBytesF env fuel script raw).isSome) := by
  exact ⟨decode_wrapDouble_eval, decryptRomPayloadT_shrink, decode_fuel_sufficient⟩

/-- C4 witness: the termination bound instantiated on the doubly-wrapped
blob with its exact measure. -/
theorem claim_C4_witness :
    decodeMeasure wrapDouble Option.none < 57 ∧
    (decodeLuaBytesF envAllDown 57 wrapDouble Option.none).isSome := by
  refine ⟨by decide, ?_⟩
  exact claim_C4_decode_unwrap_amended.2.2 envAllDown 57 wrapDouble Option.none (by decide)

/-! ## Marshalling lemmas: the seen set is threaded and restored -/

lemma convStep_seen (st : ConvSt) (pk pv : PyVal) (s2 : List Nat) :
    (convStep st pk pv s2).seen = s2 := by
  unfold convStep
  split
  · split <;> rfl
  · rfl

lemma convFold_seen (conv : LuaV → List Nat → Option (PyVal × List Nat))
    (hpres : ∀ v s r t, conv v s = some (r, t) → t = s) :
    ∀ es st st', convFold conv es st = some st' → st'.seen = st.seen := by
  intro es
  induction es with
  | nil =>
    intro st st' h
    simp only [convFold, Option.some.injEq] at h
    rw [← h]
  | cons kv rest ih =>
    intro st st' h
    obtain ⟨k, v⟩ := kv
    rw [convFold] at h
    cases hv : conv v st.seen with
    | none => rw [hv] at h; simp at h
    | some pr1 =>
      obtain ⟨pv, s1⟩ := pr1
      rw [hv] at h
      simp only at h
      cases hk : conv k s1 with
      | none => rw [hk] at h; simp at h
      | some pr2 =>
        obtain ⟨pk, s2⟩ := pr2
        rw [hk] at h
        simp only at h
        have e1 := hpres v st.seen pv s1 hv
        have e2 := hpres k s1 pk s2 hk
        have e3 := ih _ _ h
        rw [e3, convStep_seen, e2, e1]

lemma luaToPythonF_seen (H : Heap) :
    ∀ fuel v seen res sn, luaToPythonF H fuel v seen = some (res, sn) → sn = seen := by
  intro fuel
  induction fuel with
  | zero => intro v seen res sn h; simp [luaToPythonF] at h
  | succ f ih =>
    intro v seen res sn h
    cases v with
    | nil => simp only [luaToPythonF, Option.some.injEq, Prod.mk.injEq] at h; exact h.2.symm
    | boolean b => simp only [luaToPythonF, Option.some.injEq, Prod.mk.injEq] at h; exact h.2.symm
    | intg n => simp only [luaToPythonF, Option.some.injEq, Prod.mk.injEq] at h; exact h.2.symm
    | flt x => simp only [luaToPythonF, Option.some.injEq, Prod.mk.injEq] at h; exact h.2.symm
    | str s => simp only [luaToPythonF, Option.some.injEq, Prod.mk.injEq] at h; exact h.2.symm
    | table id =>
      rw [luaToPythonF] at h
      split at h
      · simp only [Option.some.injEq, Prod.mk.injEq] at h
        exact h.2.symm
      · rename_i hid
        cases hcf : convFold (fun w sn => luaToPythonF H f w sn) (entriesFor H id)
            ⟨id :: seen, [], [], 0, true⟩ with
        | none => rw [hcf] at h; simp at h
        | some st =>
          rw [hcf] at h
          simp only [Option.some.injEq, Prod.mk.injEq] at h
          have hs : st.seen = id :: seen :=
            convFold_seen _ (fun v s r t hh => ih v s r t hh) _ _ _ hcf
          rw [← h.2, hs]
          exact List.erase_cons_head id seen

/-! ## Marshalling lemmas: enough fuel always succeeds -/

lemma countFree_le (H : Heap) (seen : List Nat) : countFree H seen ≤ H.length :=
  le_trans (Finset.card_filter_le _ _) (le_of_eq (Finset.card_range _))

lemma countFree_cons_le (H : Heap) (seen : List Nat) (id : Nat) :
    countFree H (id :: seen) ≤ countFree H seen := by
  apply Finset.card_le_card
  intro i
  simp only [Finset.mem_filter, Finset.mem_range, List.mem_cons]
  tauto

lemma countFree_cons (H : Heap) (seen : List Nat) (id : Nat)
    (hid : id < H.length) (hmem : id ∉ seen) :
    countFree H (id :: seen) + 1 = countFree H seen := by
  unfold countFree
  have hset : (Finset.range H.length).filter (fun i => i ∉ id :: seen)
      = ((Finset.range H.length).filter (fun i => i ∉ seen)).erase id := by
    ext i
    simp only [Finset.mem_filter, Finset.mem_range, Finset.mem_erase, List.mem_cons]
    constructor
    · intro ⟨h1, h2⟩
      push_neg at h2
      exact ⟨h2.1, h1, h2.2⟩
    · intro ⟨h1, h2, h3⟩
      refine ⟨h2, ?_⟩
      push_neg
      exact ⟨h1, h3⟩
  rw [hset, Finset.card_erase_of_mem (by simp [hid, hmem])]
  have hpos : 0 < ((Finset.range H.length).filter (fun i => i ∉ seen)).card :=
    Finset.card_pos.mpr ⟨id, by simp [hid, hmem]⟩
  omega

lemma entriesFor_ne_nil_lt (H : Heap) (id : Nat) (h : entriesFor H id ≠ []) :
    id < H.length := by
  by_contra hge
  apply h
  unfold entriesFor
  exact List.getD_eq_default _ _ (by omega)

lemma convFold_isSome (conv : LuaV → List Nat → Option (PyVal × List Nat))
    (hpres : ∀ v s r t, conv v s = some (r, t) → t = s) :
    ∀ es st, (∀ kv ∈ es, (conv kv.2 st.seen).isSome ∧ (conv kv.1 st.seen).isSome) →
      (convFold conv es st).isSome := by
  intro es
  induction es with
  | nil => intro st _; simp [convFold]
  | cons kv rest ih =>
    intro st h
    obtain ⟨k, v⟩ := kv
    have hv : (conv v st.seen).isSome := by simpa using (h (k, v) (by simp)).1
    rcases Option.isSome_iff_exists.mp hv with ⟨⟨pv, s1⟩, hveq⟩
    have e1 := hpres v st.seen pv s1 hveq
    subst e1
    have hk : (conv k st.seen).isSome := by simpa using (h (k, v) (by simp)).2
    rcases Option.isSome_iff_exists.mp hk with ⟨⟨pk, s2⟩, hkeq⟩
    have e2 := hpres k st.seen pk s2 hkeq
    subst e2
    rw [convFold, hveq]
    simp only
    rw [hkeq]
    simp only
    apply ih
    intro kv2 hmem
    rw [convStep_seen]
    exact h kv2 (by simp [hmem])

lemma luaToPythonF_isSome (H : Heap) :
    ∀ fuel seen v, countFree H seen < fuel → (luaToPythonF H fuel v seen).isSome := by
  intro fuel
  induction fuel with
  | zero => intro seen v h; exact absurd h (by omega)
  | succ f ih =>
    intro seen v hcf
    cases v with
    | nil => simp [luaToPythonF]
    | boolean b => simp [luaToPythonF]
    | intg n => simp [luaToPythonF]
    | flt x => simp [luaToPythonF]
    | str s => simp [luaToPythonF]
    | table id =>
      rw [luaToPythonF]
      split
      · simp
      · rename_i hid
        by_cases hne : entriesFor H id = []
        · rw [hne]
          simp [convFold]
        · have hlt := entriesFor_ne_nil_lt H id hne
          have hcf2 : countFree H (id :: seen) < f := by
            have := countFree_cons H seen id hlt hid
            omega
          have hfold := convFold_isSome (fun w sn => luaToPythonF H f w sn)
            (fun v s r t hh => luaToPythonF_seen H f v s r t hh)
            (entriesFor H id) ⟨id :: seen, [], [], 0, true⟩
            (fun kv _ => ⟨ih (id :: seen) kv.2 hcf2, ih (id :: seen) kv.1 hcf2⟩)
          rcases Option.isSome_iff_exists.mp hfold with ⟨st, hst⟩
          rw [hst]
          simp

lemma luaToPythonF_eval (H : Heap) (fuel : Nat) (s : List Nat) (w : LuaV)
    (h : countFree H s < fuel) :
    luaToPythonF H fuel w s = some (pcFun H fuel s w, s) := by
  rcases Option.isSome_iff_exists.mp (luaToPythonF_isSome H fuel s w h) with ⟨⟨r, t⟩, hrt⟩
  have hts := luaToPythonF_seen H fuel w s r t hrt
  subst hts
  rw [hrt]
  unfold pcFun
  rw [hrt]

/-! ## Marshalling lemmas: factoring out the pure classification fold -/

lemma classifyFold_seen : ∀ ps st, (classifyFold ps st).seen = st.seen := by
  intro ps
  induction ps with
  | nil => intro st; rfl
  | cons p rest ih =>
    intro st
    obtain ⟨pk, pv⟩ := p
    rw [classifyFold, ih, convStep_seen]

lemma convFold_eq_classifyFold (conv : LuaV → List Nat → Option (PyVal × List Nat))
    (pc : LuaV → PyVal) :
    ∀ es st, (∀ kv ∈ es, conv kv.1 st.seen = some (pc kv.1, st.seen) ∧
        conv kv.2 st.seen = some (pc kv.2, st.seen)) →
      convFold conv es st =
        some (classifyFold (es.map (fun kv => (pc kv.1, pc kv.2))) st) := by
  intro es
  induction es with
  | nil => intro st _; simp [convFold, classifyFold]
  | cons kv rest ih =>
    intro st hc
    obtain ⟨k, v⟩ := kv
    have h2 : conv v st.seen = some (pc v, st.seen) := by
      simpa using (hc (k, v) (by simp)).2
    have h1 : conv k st.seen = some (pc k, st.seen) := by
      simpa using (hc (k, v) (by simp)).1
    rw [convFold, h2]
    simp only
    rw [h1]
    simp only [List.map_cons, classifyFold]
    apply ih
    intro kv2 hmem
    rw [convStep_seen]
    exact hc kv2 (by simp [hmem])

/-- Characterization of one table conversion step: with enough fuel and the
identity not yet visited, the result is the pure classification of the
marshalled entries, and the visiting set comes back unchanged. -/
lemma luaTable_char (H : Heap) (fuel : Nat) (id : Nat) (seen : List Nat)
    (hid : ¬ id ∈ seen) (hcf : countFree H (id :: seen) < fuel) :
    luaToPythonF H (fuel + 1) (.table id) seen =
      some (tableResult (classifyFold
        ((entriesFor H id).map (fun kv =>
          (pcFun H fuel (id :: seen) kv.1, pcFun H fuel (id :: seen) kv.2)))
        ⟨id :: seen, [], [], 0, true⟩), seen) := by
  rw [luaToPythonF, if_neg hid]
  have hfold := convFold_eq_classifyFold (fun w sn => luaToPythonF H fuel w sn)
      (pcFun H fuel (id :: seen)) (entriesFor H id) ⟨id :: seen, [], [], 0, true⟩
      (fun kv _ => ⟨luaToPythonF_eval H fuel (id :: seen) kv.1 hcf,
                    luaToPythonF_eval H fuel (id :: seen) kv.2 hcf⟩)
  rw [hfold]
  simp only [Option.some.injEq, Prod.mk.injEq]
  exact ⟨trivial, by rw [classifyFold_seen]; exact List.erase_cons_head id seen⟩

/-! ## Claim C2 -/

/-- C2: conversion of any table graph, cyclic ones included, terminates (a
fuel of H.length + 1 is always sufficient); a table identity already in the
currently-visiting set marshals to None with the set untouched; and every
successful conversion returns the visiting set exactly as it was on entry,
so no state leaks into sibling subtrees. -/
theorem claim_C2_cycle_guard_terminates :
    (∀ (H : Heap) fuel v seen, countFree H seen < fuel →
      (luaToPythonF H fuel v seen).isSome) ∧
    (∀ (H : Heap) fuel v seen, H.length + 1 ≤ fuel →
      (luaToPythonF H fuel v seen).isSome) ∧
    (∀ (H : Heap) fuel id seen, id ∈ seen →
      luaToPythonF H (fuel + 1) (.table id) seen = some (.none, seen)) ∧
    (∀ (H : Heap) fuel v seen res sn,
      luaToPythonF H fuel v seen = some (res, sn) → sn = seen) := by
  refine ⟨?_, ?_, ?_, ?_⟩
  · intro H fuel v seen h
    exact luaToPythonF_isSome H fuel seen v h
  · intro H fuel v seen h
    apply luaToPythonF_isSome
    have := countFree_le H seen
    omega
  · intro H fuel id seen h
    rw [luaToPythonF, if_pos h]
  · intro H fuel v seen res sn h
    exact luaToPythonF_seen H fuel v seen res sn h

/-- C2 witness: a one-table heap whose single entry points back at the
table itself; conversion at fuel 2 terminates with the self reference
nulled and the visiting set restored to empty. -/
theorem claim_C2_witness :
    (luaToPythonF [[(LuaV.intg 1, LuaV.table 0)]] 2 (.table 0) []).isSome ∧
    luaToPythonF [[(LuaV.intg 1, LuaV.table 0)]] (1 + 1) (.table 0) [0] =
      some (.none, [0]) ∧
    ([] : List Nat) = [] := by
  refine ⟨?_, ?_, rfl⟩
  · exact claim_C2_cycle_guard_terminates.2.1 [[(LuaV.intg 1, LuaV.table 0)]] 2
      (.table 0) [] (by decide)
  · exact claim_C2_cycle_guard_terminates.2.2.1 [[(LuaV.intg 1, LuaV.table 0)]] 1
      0 [0] (by decide)

/-! ## Marshalling lemmas: classification of integer-keyed tables -/

lemma pcFun_scalar (H : Heap) (fuel : Nat) (s : List Nat) (w : LuaV)
    (hs : isScalar w = true) (hf : 0 < fuel) : pcFun H fuel s w = scalarPy w := by
  obtain ⟨f, rfl⟩ : ∃ f, fuel = f + 1 := ⟨fuel - 1, by omega⟩
  cases w <;> simp_all [pcFun, luaToPythonF, scalarPy, isScalar]

lemma intAssocGet_append (a b : List (Int × PyVal)) (n : Int) :
    intAssocGet (a ++ b) n =
      match intAssocGet a n with
      | some v => some v
      | Option.none => intAssocGet b n := by
  induction a with
  | nil => simp [intAssocGet]
  | cons q rest ih =>
    obtain ⟨m, w⟩ := q
    by_cases h : m = n
    · simp [intAssocGet, h]
    · have hb : (m == n) = false := by simp [h]
      simp [intAssocGet, hb, ih]

lemma intAssocInsert_fresh (arr : List (Int × PyVal)) (n : Int) (v : PyVal)
    (h : intAssocGet arr n = Option.none) :
    intAssocInsert arr n v = arr ++ [(n, v)] := by
  induction arr with
  | nil => rfl
  | cons q rest ih =>
    obtain ⟨m, w⟩ := q
    by_cases hm : m = n
    · simp [intAssocGet, hm] at h
    · have hb : (m == n) = false := by simp [hm]
      simp only [intAssocInsert, hb, Bool.false_eq_true, if_false, List.cons_append,
        List.cons.injEq, true_and]
      apply ih
      simpa [intAssocGet, hb] using h

lemma foldl_insert_fresh :
    ∀ (kvs : List (Int × PyVal)) (arr : List (Int × PyVal)),
      (kvs.map Prod.fst).Nodup →
      (∀ q ∈ kvs, intAssocGet arr q.1 = Option.none) →
      kvs.foldl (fun a q => intAssocInsert a q.1 q.2) arr = arr ++ kvs := by
  intro kvs
  induction kvs with
  | nil => intro arr _ _; simp
  | cons q rest ih =>
    intro arr hnd hfresh
    obtain ⟨n, v⟩ := q
    simp only [List.foldl_cons]
    rw [intAssocInsert_fresh arr n v (hfresh (n, v) (by simp))]
    rw [ih (arr ++ [(n, v)]) (by simpa using hnd.of_cons)]
    · simp
    · intro p hp
      rw [intAssocGet_append, hfresh p (by simp [hp])]
      simp only
      cases hq : intAssocGet [(n, v)] p.1 with
      | none => rfl
      | some w =>
        exfalso
        have hpn : p.1 = n := by
          by_contra hne
          simp [intAssocGet, show (n == p.1) = false by simp [Ne.symm hne]] at hq
        simp only [List.map_cons, List.nodup_cons] at hnd
        exact hnd.1 (hpn ▸ List.mem_map_of_mem Prod.fst hp)

lemma foldl_max_ge :
    ∀ (kvs : List (Int × PyVal)) (m0 : Int),
      m0 ≤ kvs.foldl (fun m q => if m < q.1 then q.1 else m) m0 ∧
      ∀ q ∈ kvs, q.1 ≤ kvs.foldl (fun m q => if m < q.1 then q.1 else m) m0 := by
  intro kvs
  induction kvs with
  | nil => intro m0; simp
  | cons q rest ih =>
    intro m0
    obtain ⟨n, v⟩ := q
    simp only [List.foldl_cons, List.mem_cons]
    set m1 := if m0 < n then n else m0 with hm1
    have h1 : m0 ≤ m1 := by rw [hm1]; split <;> omega
    have h2 : n ≤ m1 := by rw [hm1]; split <;> omega
    refine ⟨le_trans h1 (ih m1).1, ?_⟩
    rintro p (rfl | hp)
    · exact le_trans h2 (ih m1).1
    · exact (ih m1).2 p hp

lemma foldl_max_le :
    ∀ (kvs : List (Int × PyVal)) (m0 N : Int), m0 ≤ N → (∀ q ∈ kvs, q.1 ≤ N) →
      kvs.foldl (fun m q => if m < q.1 then q.1 else m) m0 ≤ N := by
  intro kvs
  induction kvs with
  | nil => intro m0 N h _; simpa using h
  | cons q rest ih =>
    intro m0 N h hall
    obtain ⟨n, v⟩ := q
    simp only [List.foldl_cons]
    apply ih
    · have := hall (n, v) (by simp)
      simp only at this
      split <;> omega
    · intro p hp
      exact hall p (by simp [hp])

lemma classifyFold_intKeys :
    ∀ (kvs : List (Int × PyVal)) (st : ConvSt), (∀ q ∈ kvs, 1 ≤ q.1) →
      classifyFold (kvs.map (fun q => (PyVal.pyint q.1, q.2))) st =
        { st with arr := kvs.foldl (fun a q => intAssocInsert a q.1 q.2) st.arr,
                  maxIdx := kvs.foldl (fun m q => if m < q.1 then q.1 else m) st.maxIdx } := by
  intro kvs
  induction kvs with
  | nil => intro st _; simp [classifyFold]
  | cons q rest ih =>
    intro st hpos
    obtain ⟨n, v⟩ := q
    have hn : (1 : Int) ≤ n := by simpa using hpos (n, v) (by simp)
    simp only [List.map_cons, classifyFold, List.foldl_cons]
    rw [show convStep st (PyVal.pyint n) v st.seen =
        { st with arr := intAssocInsert st.arr n v,
                  maxIdx := if st.maxIdx < n then n else st.maxIdx } from by
      unfold convStep pyKeyIndex
      simp [hn]]
    rw [ih _ (fun p hp => hpos p (by simp [hp]))]

lemma tableResult_isArray (st : ConvSt) :
    (∃ xs, tableResult st = .pylist xs) ↔
      (st.cand && !st.arr.isEmpty && ((st.arr.length : Int) == st.maxIdx)) = true := by
  unfold tableResult
  split
  · rename_i h
    exact ⟨fun _ => h, fun _ => ⟨_, rfl⟩⟩
  · rename_i h
    constructor
    · rintro ⟨xs, hxs⟩
      cases hxs
    · intro hc
      exact absurd hc h

/-! ## Claim C10 -/

/-- C10: a Lua table whose only key is the boolean true marshals to the
one-element array [v]: Python's isinstance(key, int) admits bool and
True >= 1 holds (True == 1), so the entry lands in array_values at slot 1
and the array rule fires.  The boolean false, by contrast, fails key >= 1
and forces the map classification with the boolean itself as the dict key. -/
theorem claim_C10_bool_true_key :
    (∀ (H : Heap) fuel id seen v, ¬ id ∈ seen → H.length < fuel →
      entriesFor H id = [(.boolean true, v)] →
      luaToPythonF H (fuel + 1) (.table id) seen =
        some (.pylist [pcFun H fuel (id :: seen) v], seen)) ∧
    (∀ (H : Heap) fuel id seen v, ¬ id ∈ seen → H.length < fuel →
      entriesFor H id = [(.boolean false, v)] →
      luaToPythonF H (fuel + 1) (.table id) seen =
        some (.pydict [(.pybool false, pcFun H fuel (id :: seen) v)], seen)) := by
  constructor
  · intro H fuel id seen v hid hf he
    have hcf : countFree H (id :: seen) < fuel :=
      lt_of_le_of_lt (le_trans (countFree_cons_le H seen id) (countFree_le H seen)) hf
    rw [luaTable_char H fuel id seen hid hcf, he]
    simp only [List.map_cons, List.map_nil]
    rw [show pcFun H fuel (id :: seen) (.boolean true) = .pybool true from
      pcFun_scalar _ _ _ _ rfl (by omega)]
    rfl
  · intro H fuel id seen v hid hf he
    have hcf : countFree H (id :: seen) < fuel :=
      lt_of_le_of_lt (le_trans (countFree_cons_le H seen id) (countFree_le H seen)) hf
    rw [luaTable_char H fuel id seen hid hcf, he]
    simp only [List.map_cons, List.map_nil]
    rw [show pcFun H fuel (id :: seen) (.boolean false) = .pybool false from
      pcFun_scalar _ _ _ _ rfl (by omega)]
    rfl

/-- C10 witness: the concrete one-table heaps with a boolean-true key and a
boolean-false key, both holding the string value "x". -/
theorem claim_C10_witness :
    luaToPythonF [[(LuaV.boolean true, LuaV.str "x")]] (2 + 1) (.table 0) [] =
      some (.pylist [pcFun [[(LuaV.boolean true, LuaV.str "x")]] 2 [0] (.str "x")], []) ∧
    luaToPythonF [[(LuaV.boolean false, LuaV.str "x")]] (2 + 1) (.table 0) [] =
      some (.pydict [(.pybool false,
        pcFun [[(LuaV.boolean false, LuaV.str "x")]] 2 [0] (.str "x"))], []) := by
  constructor
  · exact claim_C10_bool_true_key.1 [[(LuaV.boolean true, LuaV.str "x")]] 2 0 []
      (.str "x") (by simp) (by decide) rfl
  · exact claim_C10_bool_true_key.2 [[(LuaV.boolean false, LuaV.str "x")]] 2 0 []
      (.str "x") (by simp) (by decide) rfl

/-! ## Claim C6 support -/

lemma map_pairs_zip (pcK pcV : LuaV → PyVal) (hK : ∀ n, pcK (.intg n) = .pyint n) :
    ∀ (es : List (LuaV × LuaV)) (ks : List Int),
      es.map Prod.fst = ks.map LuaV.intg →
      es.map (fun kv => (pcK kv.1, pcV kv.2)) =
        (ks.zip (es.map (fun kv => pcV kv.2))).map (fun q => (PyVal.pyint q.1, q.2)) := by
  intro es
  induction es with
  | nil =>
    intro ks h
    cases ks with
    | nil => simp
    | cons k kr => simp at h
  | cons kv rest ih =>
    intro ks h
    cases ks with
    | nil => simp at h
    | cons k kr =>
      obtain ⟨kk, vv⟩ := kv
      simp only [List.map_cons, List.cons.injEq] at h
      simp only [List.map_cons, List.zip_cons_cons, List.cons.injEq]
      exact ⟨by rw [h.1, hK], ih kr h.2⟩

lemma mem_zip_pairs (pcV : LuaV → PyVal) :
    ∀ (es : List (LuaV × LuaV)) (ks : List Int),
      es.map Prod.fst = ks.map LuaV.intg →
      ∀ i lv, (LuaV.intg i, lv) ∈ es →
        (i, pcV lv) ∈ ks.zip (es.map (fun kv => pcV kv.2)) := by
  intro es
  induction es with
  | nil => intro ks _ i lv hm; simp at hm
  | cons kv rest ih =>
    intro ks h i lv hm
    cases ks with
    | nil => simp at h
    | cons k kr =>
      obtain ⟨kk, vv⟩ := kv
      simp only [List.map_cons, List.cons.injEq] at h
      simp only [List.map_cons, List.zip_cons_cons, List.mem_cons]
      rcases List.mem_cons.mp hm with heq | htl
      · left
        injection heq with hh1 hh2
        have hik : LuaV.intg i = LuaV.intg k := by rw [hh1, h.1]
        have hik2 : i = k := by injection hik
        rw [← hik2, hh2]
      · right
        exact ih kr h.2 i lv htl

lemma intAssocGet_of_mem :
    ∀ (kvs : List (Int × PyVal)), (kvs.map Prod.fst).Nodup →
      ∀ n v, (n, v) ∈ kvs → intAssocGet kvs n = some v := by
  intro kvs
  induction kvs with
  | nil => intro _ n v hm; simp at hm
  | cons q rest ih =>
    intro hnd n v hm
    obtain ⟨m, w⟩ := q
    simp only [List.map_cons, List.nodup_cons] at hnd
    rcases List.mem_cons.mp hm with heq | htl
    · injection heq with h1 h2
      subst h1
      subst h2
      simp [intAssocGet]
    · have hne : m ≠ n := by
        intro hc
        subst hc
        exact hnd.1 (List.mem_map_of_mem Prod.fst htl)
      have hb : (m == n) = false := by simp [hne]
      simp only [intAssocGet, hb, Bool.false_eq_true, if_false]
      exact ih hnd.2 n v htl

lemma range_map_getD (n j : Nat) (g : Int → PyVal) (d : PyVal) (h : j < n) :
    (((List.range n).map (fun i => Int.ofNat i + 1)).map g).getD j d =
      g (Int.ofNat j + 1) := by
  rw [List.getD_eq_getElem _ d
    (by rw [List.length_map, List.length_map, List.length_range]; exact h)]
  rw [List.getElem_map, List.getElem_map, List.getElem_range]

lemma intAssocInsert_fst_congr :
    ∀ (a1 a2 : List (Int × PyVal)) (n : Int) (v1 v2 : PyVal),
      a1.map Prod.fst = a2.map Prod.fst →
      (intAssocInsert a1 n v1).map Prod.fst = (intAssocInsert a2 n v2).map Prod.fst := by
  intro a1
  induction a1 with
  | nil =>
    intro a2 n v1 v2 h
    cases a2 with
    | nil => simp [intAssocInsert]
    | cons q r => simp at h
  | cons q r1 ih =>
    intro a2 n v1 v2 h
    obtain ⟨m, w⟩ := q
    cases a2 with
    | nil => simp at h
    | cons q2 r2 =>
      obtain ⟨m2, w2⟩ := q2
      simp only [List.map_cons, List.cons.injEq] at h
      obtain ⟨rfl, hr⟩ := h
      by_cases hm : m = n
      · simp [intAssocInsert, hm, hr]
      · have hb : (m == n) = false := by simp [hm]
        simp only [intAssocInsert, hb, Bool.false_eq_true, if_false, List.map_cons,
          List.cons.injEq, true_and]
        exact ih r2 n v1 v2 hr

lemma classifyFold_keys_congr :
    ∀ (ps1 ps2 : List (PyVal × PyVal)) (st1 st2 : ConvSt),
      ps1.map Prod.fst = ps2.map Prod.fst →
      st1.arr.map Prod.fst = st2.arr.map Prod.fst →
      st1.maxIdx = st2.maxIdx → st1.cand = st2.cand →
      (classifyFold ps1 st1).arr.map Prod.fst = (classifyFold ps2 st2).arr.map Prod.fst ∧
      (classifyFold ps1 st1).maxIdx = (classifyFold ps2 st2).maxIdx ∧
      (classifyFold ps1 st1).cand = (classifyFold ps2 st2).cand := by
  intro ps1
  induction ps1 with
  | nil =>
    intro ps2 st1 st2 h harr hmax hcand
    cases ps2 with
    | nil => exact ⟨harr, hmax, hcand⟩
    | cons p r => simp at h
  | cons p r1 ih =>
    intro ps2 st1 st2 h harr hmax hcand
    obtain ⟨pk, pv⟩ := p
    cases ps2 with
    | nil => simp at h
    | cons p2 r2 =>
      obtain ⟨pk2, pv2⟩ := p2
      simp only [List.map_cons, List.cons.injEq] at h
      obtain ⟨rfl, hr⟩ := h
      simp only [classifyFold]
      apply ih r2 _ _ hr
      · unfold convStep
        cases pyKeyIndex pk with
        | none => simpa using harr
        | some n =>
          simp only
          split
          · simpa [hmax] using intAssocInsert_fst_congr _ _ n pv pv2 harr
          · simpa using harr
      · unfold convStep
        cases pyKeyIndex pk with
        | none => simpa using hmax
        | some n =>
          simp only
          split <;> simp [hmax]
      · unfold convStep
        cases pyKeyIndex pk with
        | none => simp
        | some n =>
          simp only
          split <;> simp [hcand]

/-! ## Claim C6 -/

/-- C6: the array-versus-map discriminator of _lua_table_to_python.  First:
a table whose observed keys are exactly the integers 1..N (pairwise
distinct, their set being Icc 1 N with N the key count) marshals to the
ordered array of length N whose (i-1)-th element is the marshalled value
stored under key i.  Second: the gap example with keys {1, 3} marshals to
the map holding exactly those two keys.  Third: the array-versus-map
decision depends only on the observed key list (here with scalar keys):
two tables with the same key list are classified identically, whatever
their values or heaps. -/
theorem claim_C6_array_map_discriminator :
    (∀ (H : Heap) fuel id seen (ks : List Int), ¬ id ∈ seen → H.length < fuel →
      (entriesFor H id).map Prod.fst = ks.map LuaV.intg →
      ks ≠ [] → ks.Nodup → ks.toFinset = Finset.Icc 1 (ks.length : Int) →
      ∃ L, luaToPythonF H (fuel + 1) (.table id) seen = some (.pylist L, seen) ∧
        L.length = ks.length ∧
        ∀ i lv, (LuaV.intg i, lv) ∈ entriesFor H id →
          L.getD (i - 1).toNat .none = pcFun H fuel (id :: seen) lv) ∧
    (∀ (H : Heap) fuel id seen a b, ¬ id ∈ seen → H.length < fuel →
      entriesFor H id = [(.intg 1, a), (.intg 3, b)] →
      luaToPythonF H (fuel + 1) (.table id) seen =
        some (.pydict [(.pyint 1, pcFun H fuel (id :: seen) a),
                       (.pyint 3, pcFun H fuel (id :: seen) b)], seen)) ∧
    (∀ (H1 H2 : Heap) fuel1 fuel2 id1 id2 seen1 seen2,
      ¬ id1 ∈ seen1 → ¬ id2 ∈ seen2 → H1.length < fuel1 → H2.length < fuel2 →
      (entriesFor H1 id1).map Prod.fst = (entriesFor H2 id2).map Prod.fst →
      (∀ k ∈ (entriesFor H1 id1).map Prod.fst, isScalar k = true) →
      ((∃ xs, luaToPythonF H1 (fuel1 + 1) (.table id1) seen1 =
          some (.pylist xs, seen1)) ↔
       (∃ ys, luaToPythonF H2 (fuel2 + 1) (.table id2) seen2 =
          some (.pylist ys, seen2)))) := by
  refine ⟨?_, ?_, ?_⟩
  · -- exact 1..N keys give the ordered array
    intro H fuel id seen ks hid hf hmap hne hnd hIcc
    have hcf : countFree H (id :: seen) < fuel :=
      lt_of_le_of_lt (le_trans (countFree_cons_le H seen id) (countFree_le H seen)) hf
    have hfpos : 0 < fuel := by omega
    set s := id :: seen with hs
    set pcv : LuaV × LuaV → PyVal := fun kv => pcFun H fuel s kv.2 with hpcv
    set es := entriesFor H id with hes
    set kvs := ks.zip (es.map pcv) with hkvs
    have hlen_es : es.length = ks.length := by
      have := congrArg List.length hmap
      simpa using this
    have hfst : kvs.map Prod.fst = ks := by
      rw [hkvs]
      exact List.map_fst_zip _ _ (by simp [hlen_es])
    have hlen_kvs : kvs.length = ks.length := by
      have := congrArg List.length hfst
      simpa using this
    have hmemks : ∀ k ∈ ks, 1 ≤ k ∧ k ≤ (ks.length : Int) := by
      intro k hk
      have : k ∈ Finset.Icc (1 : Int) (ks.length : Int) := by
        rw [← hIcc]
        exact List.mem_toFinset.mpr hk
      simpa using this
    have hpos : ∀ q ∈ kvs, 1 ≤ q.1 := by
      intro q hq
      exact (hmemks q.1 (hfst ▸ List.mem_map_of_mem Prod.fst hq)).1
    rw [luaTable_char H fuel id seen hid hcf]
    rw [map_pairs_zip (pcFun H fuel s) (pcFun H fuel s)
      (fun n => pcFun_scalar H fuel s (.intg n) rfl hfpos) es ks hmap]
    rw [classifyFold_intKeys kvs ⟨s, [], [], 0, true⟩ hpos]
    rw [show kvs.foldl (fun a q => intAssocInsert a q.1 q.2) ([] : List (Int × PyVal)) =
        [] ++ kvs from foldl_insert_fresh kvs [] (hfst ▸ hnd) (fun q _ => rfl)]
    have hmax : kvs.foldl (fun m q => if m < q.1 then q.1 else m) (0 : Int) =
        (ks.length : Int) := by
      apply le_antisymm
      · apply foldl_max_le
        · positivity
        · intro q hq
          exact (hmemks q.1 (hfst ▸ List.mem_map_of_mem Prod.fst hq)).2
      · have hNpos : 1 ≤ (ks.length : Int) := by
          have : ks.length ≠ 0 := fun hh => hne (List.length_eq_zero.mp hh)
          omega
        have hNmem : (ks.length : Int) ∈ ks := by
          have : (ks.length : Int) ∈ Finset.Icc (1 : Int) (ks.length : Int) := by
            simp [hNpos]
          rw [← hIcc] at this
          exact List.mem_toFinset.mp this
        have : (ks.length : Int) ∈ kvs.map Prod.fst := hfst ▸ hNmem
        rcases List.mem_map.mp this with ⟨q, hq, hq1⟩
        rw [← hq1]
        exact (foldl_max_ge kvs 0).2 q hq
    rw [hmax]
    have hkvs_ne : kvs ≠ [] := by
      intro hc
      have := hlen_kvs
      rw [hc] at this
      exact hne (List.length_eq_zero.mp (by simpa using this.symm))
    unfold tableResult
    rw [if_pos (by simp [hlen_kvs, List.isEmpty_iff, hkvs_ne])]
    simp only [List.nil_append]
    rw [show ((ks.length : Int)).toNat = ks.length from Int.toNat_natCast _]
    refine ⟨_, rfl, ?_, ?_⟩
    · simp
    · intro i lv hm
      have hmem : (i, pcFun H fuel s lv) ∈ kvs := by
        rw [hkvs, hpcv]
        exact mem_zip_pairs (pcFun H fuel s) es ks hmap i lv (hes ▸ hm)
      have hbounds := hmemks i (hfst ▸ List.mem_map_of_mem Prod.fst hmem)
      have hj : (i - 1).toNat < ks.length := by omega
      rw [range_map_getD ks.length ((i - 1).toNat) _ .none hj]
      rw [show Int.ofNat ((i - 1).toNat) + 1 = i from by
        rw [Int.ofNat_eq_natCast]
        omega]
      rw [intAssocGet_of_mem kvs (hfst ▸ hnd) i _ hmem]
      rfl
  · -- gap {1, 3} gives the map
    intro H fuel id seen a b hid hf he
    have hcf : countFree H (id :: seen) < fuel :=
      lt_of_le_of_lt (le_trans (countFree_cons_le H seen id) (countFree_le H seen)) hf
    rw [luaTable_char H fuel id seen hid hcf, he]
    simp only [List.map_cons, List.map_nil]
    rw [show pcFun H fuel (id :: seen) (.intg 1) = .pyint 1 from
      pcFun_scalar _ _ _ _ rfl (by omega)]
    rw [show pcFun H fuel (id :: seen) (.intg 3) = .pyint 3 from
      pcFun_scalar _ _ _ _ rfl (by omega)]
    rfl
  · -- the decision is a function of the observed keys alone
    intro H1 H2 fuel1 fuel2 id1 id2 seen1 seen2 hid1 hid2 hf1 hf2 hkeys hscal
    have hcf1 : countFree H1 (id1 :: seen1) < fuel1 :=
      lt_of_le_of_lt (le_trans (countFree_cons_le H1 seen1 id1) (countFree_le H1 seen1)) hf1
    have hcf2 : countFree H2 (id2 :: seen2) < fuel2 :=
      lt_of_le_of_lt (le_trans (countFree_cons_le H2 seen2 id2) (countFree_le H2 seen2)) hf2
    rw [luaTable_char H1 fuel1 id1 seen1 hid1 hcf1,
        luaTable_char H2 fuel2 id2 seen2 hid2 hcf2]
    have hscal2 : ∀ k ∈ (entriesFor H2 id2).map Prod.fst, isScalar k = true := by
      rw [← hkeys]; exact hscal
    have hp : ((entriesFor H1 id1).map (fun kv =>
        (pcFun H1 fuel1 (id1 :: seen1) kv.1, pcFun H1 fuel1 (id1 :: seen1) kv.2))).map
          Prod.fst =
        ((entriesFor H2 id2).map (fun kv =>
        (pcFun H2 fuel2 (id2 :: seen2) kv.1, pcFun H2 fuel2 (id2 :: seen2) kv.2))).map
          Prod.fst := by
      rw [List.map_map, List.map_map]
      have e1 : (entriesFor H1 id1).map
          (Prod.fst ∘ fun kv => (pcFun H1 fuel1 (id1 :: seen1) kv.1,
            pcFun H1 fuel1 (id1 :: seen1) kv.2)) =
          (entriesFor H1 id1).map (fun kv => scalarPy kv.1) := by
        apply List.map_congr_left
        intro kv hkv
        exact pcFun_scalar _ _ _ _ (hscal kv.1 (List.mem_map_of_mem Prod.fst hkv))
          (by omega)
      have e2 : (entriesFor H2 id2).map
          (Prod.fst ∘ fun kv => (pcFun H2 fuel2 (id2 :: seen2) kv.1,
            pcFun H2 fuel2 (id2 :: seen2) kv.2)) =
          (entriesFor H2 id2).map (fun kv => scalarPy kv.1) := by
        apply List.map_congr_left
        intro kv hkv
        exact pcFun_scalar _ _ _ _ (hscal2 kv.1 (List.mem_map_of_mem Prod.fst hkv))
          (by omega)
      rw [e1, e2]
      rw [show (entriesFor H1 id1).map (fun kv => scalarPy kv.1) =
          ((entriesFor H1 id1).map Prod.fst).map scalarPy from by
        rw [List.map_map]; rfl]
      rw [show (entriesFor H2 id2).map (fun kv => scalarPy kv.1) =
          ((entriesFor H2 id2).map Prod.fst).map scalarPy from by
        rw [List.map_map]; rfl]
      rw [hkeys]
    set ps1 := (entriesFor H1 id1).map (fun kv =>
      (pcFun H1 fuel1 (id1 :: seen1) kv.1, pcFun H1 fuel1 (id1 :: seen1) kv.2)) with hps1
    set ps2 := (entriesFor H2 id2).map (fun kv =>
      (pcFun H2 fuel2 (id2 :: seen2) kv.1, pcFun H2 fuel2 (id2 :: seen2) kv.2)) with hps2
    set st1 := classifyFold ps1 ⟨id1 :: seen1, [], [], 0, true⟩ with hst1
    set st2 := classifyFold ps2 ⟨id2 :: seen2, [], [], 0, true⟩ with hst2
    obtain ⟨harr, hmax, hcand⟩ :=
      classifyFold_keys_congr ps1 ps2
        ⟨id1 :: seen1, [], [], 0, true⟩ ⟨id2 :: seen2, [], [], 0, true⟩ hp rfl rfl rfl
    have hlen : st1.arr.length = st2.arr.length := by
      have := congrArg List.length harr
      simpa using this
    have hdec : (st1.cand && !st1.arr.isEmpty && ((st1.arr.length : Int) == st1.maxIdx)) =
        (st2.cand && !st2.arr.isEmpty && ((st2.arr.length : Int) == st2.maxIdx)) := by
      rw [hcand, hmax, hlen]
      have hemp : st1.arr.isEmpty = st2.arr.isEmpty := by
        cases h1 : st1.arr <;> cases h2 : st2.arr <;> simp_all
      rw [hemp]
    constructor
    · rintro ⟨xs, hxs⟩
      simp only [Option.some.injEq, Prod.mk.injEq] at hxs
      have h1 := (tableResult_isArray st1).mp ⟨xs, hxs.1⟩
      rcases (tableResult_isArray st2).mpr (hdec.symm.trans h1) with ⟨ys, hys⟩
      exact ⟨ys, by rw [hys]⟩
    · rintro ⟨ys, hys⟩
      simp only [Option.some.injEq, Prod.mk.injEq] at hys
      have h1 := (tableResult_isArray st2).mp ⟨ys, hys.1⟩
      rcases (tableResult_isArray st1).mpr (hdec.trans h1) with ⟨xs, hxs⟩
      exact ⟨xs, by rw [hxs]⟩

/-- C6 witness: keys {2, 1} (observed out of order) marshal to a 2-element
array, and keys {1, 3} marshal to a map. -/
theorem claim_C6_witness :
    (∃ L, luaToPythonF [[(LuaV.intg 2, LuaV.str "b"), (LuaV.intg 1, LuaV.str "a")]]
        (2 + 1) (.table 0) [] = some (.pylist L, []) ∧
      L.length = ([2, 1] : List Int).length ∧
      ∀ i lv, (LuaV.intg i, lv) ∈
          entriesFor [[(LuaV.intg 2, LuaV.str "b"), (LuaV.intg 1, LuaV.str "a")]] 0 →
        L.getD (i - 1).toNat .none =
          pcFun [[(LuaV.intg 2, LuaV.str "b"), (LuaV.intg 1, LuaV.str "a")]] 2
            (0 :: []) lv) ∧
    luaToPythonF [[(LuaV.intg 1, LuaV.str "a"), (LuaV.intg 3, LuaV.str "b")]]
        (2 + 1) (.table 0) [] =
      some (.pydict
        [(.pyint 1, pcFun [[(LuaV.intg 1, LuaV.str "a"), (LuaV.intg 3, LuaV.str "b")]]
            2 (0 :: []) (.str "a")),
         (.pyint 3, pcFun [[(LuaV.intg 1, LuaV.str "a"), (LuaV.intg 3, LuaV.str "b")]]
            2 (0 :: []) (.str "b"))], []) := by
  constructor
  · exact claim_C6_array_map_discriminator.1
      [[(LuaV.intg 2, LuaV.str "b"), (LuaV.intg 1, LuaV.str "a")]] 2 0 [] [2, 1]
      (by simp) (by decide) rfl (by decide) (by decide) (by decide)
  · exact claim_C6_array_map_discriminator.2.1
      [[(LuaV.intg 1, LuaV.str "a"), (LuaV.intg 3, LuaV.str "b")]] 2 0 []
      (.str "a") (.str "b") (by simp) (by decide) rfl

/-! ## Claim C3 -/

/-- C3 counterexample: dump_lua_table receives a RuntimeFault from the
native runtime (SluaRuntimeError: the named global is absent or not a
table), yet does not fail with that error: the except clause catches
SluaRuntimeError together with FileNotFoundError and OSError, the call
falls back to the external-interpreter strategy, and here it succeeds. -/
theorem claim_C3_counterexample :
    dumpLuaTable
      { runtimeDump := fun _ _ => .error .fault
        dumpChunk := fun _ => .ok [1]
        luaExe := .ok ()
        runProc := fun _ _ => .ok "[1]"
        jsonLoads := fun s => if s = "[1]" then .ok (.pylist [.pyint 1]) else .error () }
      [42] "T" = .ok (.pylist [.pyint 1]) := by
  rfl

/-- C3 amended: every error of the native table dump, RuntimeFault
included, triggers the external-interpreter fallback: a faulting runtime
behaves exactly like an unavailable one, and when the fallback chunk
builders also fail the call raises the builder's error, not the fault. -/
theorem claim_C3_fault_falls_back :
    (∀ (env : ExecEnv) script name,
      dumpLuaTable { env with runtimeDump := fun _ _ => .error .fault } script name =
      dumpLuaTable { env with runtimeDump := fun _ _ => .error .unavailable } script name) ∧
    (∀ (env : ExecEnv) script name e msg,
      env.runtimeDump script name = .error e →
      env.dumpChunk script = .error .unavailable ∨ env.dumpChunk script = .error .fault →
      buildLuacPayload script = .error msg →
      dumpLuaTable env script name = .error (.buildValue msg)) := by
  constructor
  · intro env script name
    rfl
  · intro env script name e msg h1 h2 h3
    unfold dumpLuaTable
    rw [h1]
    simp only
    rcases h2 with h2 | h2 <;> rw [h2] <;> simp only <;> rw [h3]

/-- C3 witness: the fault-equals-unavailable equation and the propagated
builder error, both at concrete environments. -/
theorem claim_C3_witness :
    dumpLuaTable
      { runtimeDump := fun _ _ => .error .fault
        dumpChunk := fun _ => .error .unavailable
        luaExe := .error ()
        runProc := fun _ _ => .error 1
        jsonLoads := fun _ => .error () } [42] "T" =
    dumpLuaTable
      { runtimeDump := fun _ _ => .error .unavailable
        dumpChunk := fun _ => .error .unavailable
        luaExe := .error ()
        runProc := fun _ _ => .error 1
        jsonLoads := fun _ => .error () } [42] "T" ∧
    dumpLuaTable
      { runtimeDump := fun _ _ => .error .fault
        dumpChunk := fun _ => .error .unavailable
        luaExe := .error ()
        runProc := fun _ _ => .error 1
        jsonLoads := fun _ => .error () } [42] "T" =
      .error (.buildValue "Unsupported Lua blob format") := by
  constructor
  · exact claim_C3_fault_falls_back.1
      { runtimeDump := fun _ _ => .error .unavailable
        dumpChunk := fun _ => .error .unavailable
        luaExe := .error ()
        runProc := fun _ _ => .error 1
        jsonLoads := fun _ => .error () } [42] "T"
  · exact claim_C3_fault_falls_back.2
      { runtimeDump := fun _ _ => .error .fault
        dumpChunk := fun _ => .error .unavailable
        luaExe := .error ()
        runProc := fun _ _ => .error 1
        jsonLoads := fun _ => .error () } [42] "T" .fault
      "Unsupported Lua blob format" rfl (Or.inl rfl) (by decide)

/-! ## Claim C7 support -/

lemma findSubIdx_cons_eq (a : Nat) (tl pat : List Nat) :
    findSubIdx (a :: tl) pat =
      if (a :: tl).take pat.length == pat then some 0
      else (findSubIdx tl pat).map (fun x => x + 1) := rfl

lemma headD_eq_getD (data : List Nat) : data.headD 0 = data.head?.getD 0 := by
  cases data <;> rfl

lemma findSubIdx_single_none (l : List Nat) (b : Nat) (h : b ∉ l) :
    findSubIdx l [b] = Option.none := by
  induction l with
  | nil => rfl
  | cons a tl ih =>
    rw [findSubIdx_cons_eq]
    have hab : a ≠ b := fun hc => h (hc ▸ List.mem_cons_self a tl)
    rw [if_neg (by simp [hab])]
    rw [ih (fun hc => h (List.mem_cons_of_mem a hc))]
    rfl

lemma findSubIdx_single_append (pre post : List Nat) (h : (0 : Nat) ∉ pre) :
    findSubIdx (pre ++ 0 :: post) [0] = some pre.length := by
  induction pre with
  | nil => rfl
  | cons a tl ih =>
    rw [List.cons_append, findSubIdx_cons_eq]
    have ha : a ≠ 0 := fun hc => h (hc ▸ List.mem_cons_self a tl)
    rw [if_neg (by simp [ha])]
    rw [ih (fun hc => h (List.mem_cons_of_mem a hc))]
    rfl

/-! ## Claim C7 -/

/-- C7: _build_luac_payload fails for blobs shorter than 257 bytes or not
led by the 0x2A marker; fails when the remainder past the first 257 bytes
holds no null byte; and otherwise returns exactly HEADER_BYTES followed by
the bytes after the first null byte of that remainder, with any further
null padding stripped. -/
theorem claim_C7_build_luac_payload :
    (∀ data : List Nat, data.length < 257 ∨ data.headD 0 ≠ 0x2A →
      ∃ e, buildLuacPayload data = .error e) ∧
    (∀ data : List Nat, 257 ≤ data.length → data.headD 0 = 0x2A →
      (0 : Nat) ∉ data.drop 257 → ∃ e, buildLuacPayload data = .error e) ∧
    (∀ (data pre post : List Nat), 257 ≤ data.length → data.headD 0 = 0x2A →
      data.drop 257 = pre ++ 0 :: post → (0 : Nat) ∉ pre →
      buildLuacPayload data =
        .ok (HEADER_BYTES ++ post.dropWhile (fun b => b == 0))) := by
  refine ⟨?_, ?_, ?_⟩
  · intro data h
    refine ⟨"Unsupported Lua blob format", ?_⟩
    unfold buildLuacPayload
    rw [if_pos ?_]
    rcases h with h | h
    · simp [h]
    · have hh : ¬ data.head?.getD 0 = 0x2A := by
        rw [← headD_eq_getD]; exact h
      simp [hh]
  · intro data hlen hhead hnull
    refine ⟨"Malformed Lua payload (missing null terminator)", ?_⟩
    unfold buildLuacPayload
    have hh : data.head?.getD 0 = 0x2A := by
      rw [← headD_eq_getD]; exact hhead
    rw [if_neg (by simp [hh]; omega)]
    have hfind : findSubIdx (data.drop 257) [0] = Option.none :=
      findSubIdx_single_none _ 0 hnull
    simp only [hfind]
  · intro data pre post hlen hhead hsplit hpre
    unfold buildLuacPayload
    have hh : data.head?.getD 0 = 0x2A := by
      rw [← headD_eq_getD]; exact hhead
    rw [if_neg (by simp [hh]; omega)]
    have hfind : findSubIdx (pre ++ 0 :: post) [0] = some pre.length :=
      findSubIdx_single_append pre post hpre
    have hdrop : (pre ++ 0 :: post).drop (pre.length + 1) = post := by
      simp
    simp only [hsplit, hfind, hdrop]

set_option maxRecDepth 4000 in
/-- C7 witness: marker, 256 opaque bytes, then 7 0 0 5 6: the embedded path
byte 7 ends at the first null, the second null is padding, and the opcode
stream 5 6 follows the synthesized header. -/
theorem claim_C7_witness :
    buildLuacPayload ((0x2A :: List.replicate 256 1) ++ [7, 0, 0, 5, 6]) =
      .ok (HEADER_BYTES ++ [5, 6]) := by
  have h := claim_C7_build_luac_payload.2.2
    ((0x2A :: List.replicate 256 1) ++ [7, 0, 0, 5, 6]) [7] [0, 5, 6]
    (by simp) (by rfl) (by decide) (by decide)
  have h2 : List.dropWhile (fun b : Nat => b == 0) [0, 5, 6] = [5, 6] := rfl
  rw [h2] at h
  exact h

/-! ## Claim C8 -/

/-- C8: iter_lua_entries anchors a match with text.rfind("{"), the nearest
brace to the left whether or not it is already closed, not the nearest
unmatched brace.  On "{a} id=1" the anchoring brace at index 0 is closed at
index 2 (before the match at 4), the yielded snippet "{a}" does not even
contain "id=" (contradicting the generator's own docstring), and the cursor
comes back to 3, so the generator loops forever re-yielding the same
snippet. -/
theorem claim_C8_anchor_not_unmatched :
    iterStep ['{', 'a', '}', ' ', 'i', 'd', '=', '1'] 0 = .yield ['{', 'a', '}'] 3 ∧
    braceClosedWithin (['{', 'a', '}', ' ', 'i', 'd', '=', '1'].take 4) = true ∧
    firstMatch ['{', 'a', '}'] ['i', 'd', '='] = Option.none ∧
    iterStep ['{', 'a', '}', ' ', 'i', 'd', '=', '1'] 3 = .yield ['{', 'a', '}'] 3 ∧
    iterLuaEntriesF ['{', 'a', '}', ' ', 'i', 'd', '=', '1'] 5 0 = Option.none := by
  exact ⟨by decide, by decide, by decide, by decide, by decide⟩
